import Mathlib

/-!
# Cockatrice picture loader: a verification development

A shallow embedding of `cockatrice/src/pictureloader.cpp` (set ranking, pending
fetch records, load queue, download manager, rendition cache) and of the
command-line argument scanner of `cockatrice/src/main.cpp`, together with the
properties stated for them.

Conventions of the embedding:

* `QString` is a list of characters, `QByteArray` a list of byte values.
* `CardInfo *` is `Option CardInfo`; the card database keeps one object per card,
  so pointer equality of cards is equality of the records.
* `int` values are `Int`; `QList::size()` is cast to `Int` where the source
  computes with it (`size() - 1` is `-1` for an empty list).
* Qt library routines and the operating system (percent encoding, MD5, image
  decoding, directory creation, ...) are fields of `Env`.
* The mutable members of `PictureLoader`, the global `QPixmapCache`, the files
  written and the network requests issued are fields of one state record.
-/

namespace Cockatrice

abbrev QString := List Char

abbrev QByteArray := List Nat

/-! ## Card database types (carddatabase.h) -/

/-- One printing of a card: the members of `CardSet` that the loader reads. -/
structure CardSet where
  shortName : QString
  longName : QString
  correctedShortName : QString
  sortKey : Int
  enabled : Bool
deriving DecidableEq, Inhabited, Repr

/-- One card: the members of `CardInfo` that the loader reads. -/
structure CardInfo where
  name : QString
  correctedName : QString
  sets : List CardSet
  customPicURLs : List (QString × QString)
  muIds : List (QString × Int)
  upsideDownArt : Bool
  pixmapCacheKey : QString
deriving DecidableEq, Inhabited, Repr

/-! ## Set priority ranking -/

/-- The comparison `PictureToLoad::EnabledAndKeyCompareFunctor::operator()`. -/
def EnabledAndKeyCompareFunctor (a b : CardSet) : Bool :=
  if a.enabled then
    if b.enabled then
      -- both enabled: sort by key
      decide (a.sortKey < b.sortKey)
    else
      -- only a enabled
      true
  else
    if b.enabled then
      -- only b enabled
      false
    else
      -- both disabled: sort by key
      decide (a.sortKey < b.sortKey)

/-! ### Qt's `qSort` (qalgorithms.h)

`qSort(begin, end, lessThan)` is a Qt library template, not part of this
repository. It is transcribed from Qt's `qSortHelper`, so that the order it
gives to elements that compare equal is the library's. A range `[start, end)`
is a list, an iterator an offset into it. -/

section QSort

variable {α : Type} [Inhabited α]

/-- The element an iterator points to: `*it`. -/
def deref (l : List α) (i : Nat) : α := l.getD i default

/-- The exchange `qSwap(*i, *j)`. -/
def qSwap (l : List α) (i j : Nat) : List α :=
  (l.set i (deref l j)).set j (deref l i)

/-- The loop `while (low < high && lessThan(*low, *end)) ++low;`. -/
def scanLow (lessThan : α → α → Bool) (l : List α) (e high : Nat) : Nat → Nat → Nat
  | 0, low => low
  | n + 1, low =>
    if low < high ∧ lessThan (deref l low) (deref l e) = true then
      scanLow lessThan l e high n (low + 1)
    else low

/-- The loop `while (high > low && lessThan(*end, *high)) --high;`. -/
def scanHigh (lessThan : α → α → Bool) (l : List α) (e low : Nat) : Nat → Nat → Nat
  | 0, high => high
  | n + 1, high =>
    if high > low ∧ lessThan (deref l e) (deref l high) = true then
      scanHigh lessThan l e low n (high - 1)
    else high

/-- The loop `while (low < high) { ... }` of `qSortHelper`; returns the range
and the final `low`. -/
def partitionLoop (lessThan : α → α → Bool) (e : Nat) :
    Nat → List α → Nat → Nat → List α × Nat
  | 0, l, low, _ => (l, low)
  | n + 1, l, low, high =>
    if low < high then
      let low1 := scanLow lessThan l e high (high - low) low
      let high1 := scanHigh lessThan l e low1 (high - low1) high
      if low1 < high1 then
        partitionLoop lessThan e n (qSwap l low1 high1) (low1 + 1) (high1 - 1)
      else (l, low1)
    else (l, low)

/-- Qt's `qSortHelper(start, end, t, lessThan)` on the range `l`. The recursive
call sorts `[start, low)`, the `goto top` continues with `[low + 1, end)`. -/
def qSortHelper (lessThan : α → α → Bool) : Nat → List α → List α
  | 0, l => l
  | fuel + 1, l =>
    let span := l.length
    if span < 2 then l
    else
      let e := span - 1
      let pivot := span / 2
      let l1 := if lessThan (deref l e) (deref l 0) then qSwap l e 0 else l
      if span = 2 then l1
      else
        let l2 := if lessThan (deref l1 pivot) (deref l1 0) then qSwap l1 pivot 0 else l1
        let l3 := if lessThan (deref l2 e) (deref l2 pivot) then qSwap l2 e pivot else l2
        if span = 3 then l3
        else
          let l4 := qSwap l3 pivot e
          let r := partitionLoop lessThan e span l4 0 (e - 1)
          let low := if lessThan (deref r.1 r.2) (deref r.1 e) then r.2 + 1 else r.2
          let l5 := qSwap r.1 e low
          qSortHelper lessThan fuel (l5.take low) ++
            deref l5 low :: qSortHelper lessThan fuel (l5.drop (low + 1))

/-- Qt's `qSort(start, end, lessThan)`: `if (start != end) qSortHelper(...)`. -/
def qSort (lessThan : α → α → Bool) (l : List α) : List α :=
  if l.length = 0 then l else qSortHelper lessThan l.length l

end QSort

/-- A comparison under which sorting is meaningful: what is below is not above,
and "not above" is transitive. -/
structure IsRanking {α : Type} (lt : α → α → Bool) : Prop where
  asymm : ∀ a b, lt a b = true → lt b a = false
  trans : ∀ a b c, lt b a = false → lt c b = false → lt c a = false

/-- The list `l` is in ascending order for `lt`: no element is above a later one. -/
def Ascending {α : Type} (lt : α → α → Bool) (l : List α) : Prop :=
  l.Pairwise (fun a b => lt b a = false)

/-! ## Pending fetch record -/

/-- The class `PictureToLoad`. -/
structure PictureToLoad where
  card : Option CardInfo
  sortedSets : List CardSet
  setIndex : Int
deriving DecidableEq, Inhabited, Repr

namespace PictureToLoad

/-- The constructor `PictureToLoad::PictureToLoad(CardInfo *_card)`. -/
def new (card : Option CardInfo) : PictureToLoad :=
  match card with
  | some c =>
    { card := some c, sortedSets := qSort EnabledAndKeyCompareFunctor c.sets, setIndex := 0 }
  | none => { card := none, sortedSets := [], setIndex := 0 }

/-- The method `PictureToLoad::nextSet`: the result and the record afterwards. -/
def nextSet (p : PictureToLoad) : Bool × PictureToLoad :=
  if p.setIndex = (p.sortedSets.length : Int) - 1 then (false, p)
  else (true, { p with setIndex := p.setIndex + 1 })

/-- The method `PictureToLoad::getCurrentSet`. -/
def getCurrentSet (p : PictureToLoad) : Option CardSet :=
  if p.setIndex < (p.sortedSets.length : Int) then p.sortedSets[p.setIndex.toNat]? else none

/-- The method `PictureToLoad::getSetName`. -/
def getSetName (p : PictureToLoad) : QString :=
  if p.setIndex < (p.sortedSets.length : Int) then
    match p.sortedSets[p.setIndex.toNat]? with
    | some s => s.correctedShortName
    | none => []
  else []

/-- The accessor `PictureToLoad::getCard`. -/
def getCard (p : PictureToLoad) : Option CardInfo := p.card

end PictureToLoad

/-! ## Qt value types and library routines -/

/-- A decoded bitmap (`QImage`): its rows of pixel values. `QImage()` has none. -/
structure QImage where
  rows : List (List Nat)
deriving DecidableEq, Inhabited, Repr

/-- A `QPixmap`; `QPixmap::fromImage` keeps the content. -/
abbrev QPixmap := QImage

namespace QImage

/-- The null image `QImage()`. -/
def null : QImage := { rows := [] }

/-- The test `QImage::isNull`. -/
def isNull (img : QImage) : Bool := img.rows.isEmpty

/-- The method `QImage::mirrored(horizontal, vertical)`. -/
def mirrored (img : QImage) (horizontal vertical : Bool) : QImage :=
  let rs := if vertical then img.rows.reverse else img.rows
  { rows := if horizontal then rs.map List.reverse else rs }

end QImage

/-- A `QSize`. -/
structure QSize where
  width : Int
  height : Int
deriving DecidableEq, Inhabited, Repr

/-- A finished `QNetworkReply`: status code, redirection target and payload. -/
structure QNetworkReply where
  statusCode : Int
  redirectionTarget : QString
  data : QByteArray
deriving DecidableEq, Inhabited, Repr

/-- `QString::number(int)`: the decimal digits, with a sign for negative values. -/
def number (n : Int) : QString :=
  if n < 0 then (Char.ofNat 45) :: Nat.toDigits 10 n.natAbs else Nat.toDigits 10 n.toNat

/-- `QString::contains(str)`: `str` occurs somewhere in `s`. -/
def contains (s str : QString) : Bool :=
  match s with
  | [] => str.isEmpty
  | c :: cs => str.isPrefixOf (c :: cs) || contains cs str

/-- The scan of `QString::replace(before, after)`, left to right over the text
that is left; `skip` counts the characters of a match still to be dropped. -/
def replaceScan (before after : QString) : Nat → QString → QString
  | _, [] => []
  | skip + 1, _ :: cs => replaceScan before after skip cs
  | 0, c :: cs =>
    if before.isPrefixOf (c :: cs) then
      after ++ replaceScan before after (before.length - 1) cs
    else c :: replaceScan before after 0 cs

/-- `QString::replace(before, after)` for a non-empty `before`: every
occurrence, found left to right and not overlapping, is replaced. -/
def replace (s before after : QString) : QString := replaceScan before after 0 s

/-- What the loader consumes from Qt, the operating system and the settings
cache. None of it is code of this repository. -/
structure Env where
  /-- `QUrl::toPercentEncoding`. -/
  toPercentEncoding : QString → QString
  /-- `QString::toLower`. -/
  toLower : QString → QString
  /-- `QCryptographicHash::hash(data, Md5).toHex()`. -/
  md5Hex : QByteArray → QString
  /-- `QImageReader::format()` with the format decided from the content. -/
  imageFormat : QByteArray → QString
  /-- `QImageReader::read` on a reply: the image decoded from the payload. -/
  decode : QByteArray → Option QImage
  /-- `QImageReader::read` on a file name, over the files present. -/
  readFile : List (QString × QByteArray) → QString → Option QImage
  /-- `QDir().mkpath(path)` succeeds. -/
  mkpath : QString → Bool
  /-- `QFile::open(QIODevice::WriteOnly)` succeeds for the path. -/
  openWrite : QString → Bool
  /-- `QPixmap::scaled(size, Qt::KeepAspectRatio, Qt::SmoothTransformation)`. -/
  scaled : QPixmap → QSize → QPixmap
  /-- `QPixmap("theme:cardback")`. -/
  cardBack : QPixmap
  /-- `settingsCache->getPicUrl()`. -/
  picUrl : QString
  /-- `settingsCache->getPicUrlFallback()`. -/
  picUrlFallback : QString

/-! ### `QPixmapCache` as a key-value store

The capacity bound and the eviction policy belong to Qt; here an inserted entry
stays until it is removed or the cache is cleared. -/

abbrev PixmapCache := List (QString × QPixmap)

/-- `QPixmapCache::find(key, &pixmap)`. -/
def cacheFind (cache : PixmapCache) (key : QString) : Option QPixmap := cache.lookup key

/-- `QPixmapCache::remove(key)`. -/
def cacheRemove (cache : PixmapCache) (key : QString) : PixmapCache :=
  cache.filter (fun e => e.1 != key)

/-- `QPixmapCache::insert(key, pixmap)`: replaces the entry of the key. -/
def cacheInsert (cache : PixmapCache) (key : QString) (pixmap : QPixmap) : PixmapCache :=
  (key, pixmap) :: cacheRemove cache key

/-- `QFile::write` of a whole file. -/
def writeFile (files : List (QString × QByteArray)) (path : QString) (data : QByteArray) :
    List (QString × QByteArray) :=
  (path, data) :: files.filter (fun f => f.1 != path)

/-! ## Card accessors (carddatabase.h) -/

namespace CardInfo

/-- `CardInfo::getCustomPicURL(set)`: `customPicURLs.value(set)`. -/
def getCustomPicURL (c : CardInfo) (set : QString) : QString :=
  (c.customPicURLs.lookup set).getD []

/-- `CardInfo::getMuId(set)`: `muIds.value(set)`. -/
def getMuId (c : CardInfo) (set : QString) : Int := (c.muIds.lookup set).getD 0

end CardInfo

/-! ## The loader -/

/-- The static member `PictureLoader::md5Blacklist`. -/
def md5Blacklist : List QString :=
  ["db0c48db407a907c16ade38de048a441".toList]

/-- The members of `PictureLoader` and the world it acts on. -/
structure PictureLoader where
  loadQueue : List PictureToLoad
  cardBeingLoaded : PictureToLoad
  cardBeingDownloaded : PictureToLoad
  cardsToDownload : List PictureToLoad
  downloadRunning : Bool
  loadQueueRunning : Bool
  picsPath : QString
  picDownload : Bool
  /-- The global `QPixmapCache`. -/
  pixmapCache : PixmapCache
  /-- The files written by the loader, newest first. -/
  files : List (QString × QByteArray)
  /-- The URLs passed to `networkManager->get`, oldest first. -/
  requests : List QString
  /-- The number of `emit startLoadQueue()`. -/
  startLoadQueueEmitted : Nat
  /-- The cards whose `emitPixmapUpdated()` was called, oldest first. -/
  pixmapUpdated : List CardInfo
  /-- The calls of `imageLoaded(card, image)`, oldest first. -/
  completions : List (Option CardInfo × QImage)
  /-- The records taken from the load queue for a local lookup (the
  "Trying to load picture" log line), with their printing index, oldest first. -/
  lookups : List (Option CardInfo × Int)
deriving DecidableEq, Inhabited, Repr

namespace PictureLoader

/-- The loader after `PictureLoader::PictureLoader()`. -/
def init (picsPath : QString) (picDownload : Bool) : PictureLoader :=
  { loadQueue := [], cardBeingLoaded := PictureToLoad.new none,
    cardBeingDownloaded := PictureToLoad.new none, cardsToDownload := [],
    downloadRunning := false, loadQueueRunning := false,
    picsPath := picsPath, picDownload := picDownload,
    pixmapCache := [], files := [], requests := [], startLoadQueueEmitted := 0,
    pixmapUpdated := [], completions := [], lookups := [] }

/-- `PictureLoader::imageLoaded(card, image)`. Reading a null card is undefined
in the source; the model leaves the cache alone there. -/
def imageLoaded (s : PictureLoader) (card : Option CardInfo) (image : QImage) : PictureLoader :=
  let s1 := { s with completions := s.completions ++ [(card, image)] }
  if image.isNull then s1
  else
    match card with
    | none => s1
    | some c =>
      if c.upsideDownArt then
        let mirrorImage := image.mirrored true true
        { s1 with pixmapCache := cacheInsert s1.pixmapCache c.pixmapCacheKey mirrorImage,
                  pixmapUpdated := s1.pixmapUpdated ++ [c] }
      else
        { s1 with pixmapCache := cacheInsert s1.pixmapCache c.pixmapCacheKey image,
                  pixmapUpdated := s1.pixmapUpdated ++ [c] }

/-- The seven placeholder tokens checked at the end of `getPicUrl`. -/
def placeholders : List QString :=
  ["!name!".toList, "!name_lower!".toList, "!setcode!".toList, "!setcode_lower!".toList,
   "!setname!".toList, "!setname_lower!".toList, "!cardid!".toList]

/-- The substitutions of `getPicUrl` (lines 204-213) on a template. -/
def substitute (env : Env) (card : CardInfo) (set : Option CardSet) (muid : Int)
    (template : QString) : QString :=
  let u1 := replace template "!name!".toList (env.toPercentEncoding card.correctedName)
  let u2 := replace u1 "!name_lower!".toList
    (env.toPercentEncoding (env.toLower card.correctedName))
  let u3 := replace u2 "!cardid!".toList (env.toPercentEncoding (number muid))
  match set with
  | some st =>
    let u4 := replace u3 "!setcode!".toList (env.toPercentEncoding st.shortName)
    let u5 := replace u4 "!setcode_lower!".toList
      (env.toPercentEncoding (env.toLower st.shortName))
    let u6 := replace u5 "!setname!".toList (env.toPercentEncoding st.longName)
    replace u6 "!setname_lower!".toList (env.toPercentEncoding (env.toLower st.longName))
  | none => u3

/-- `PictureLoader::getPicUrl()`. With no card being downloaded the source reads
a null card; the model answers the empty string there. -/
def getPicUrl (env : Env) (s : PictureLoader) : QString :=
  if !s.picDownload then []
  else
    match s.cardBeingDownloaded.getCard with
    | none => []
    | some card =>
      let set := s.cardBeingDownloaded.getCurrentSet
      -- if sets have been defined for the card, they can contain custom picUrls
      let custom := match set with
        | some st => card.getCustomPicURL st.shortName
        | none => []
      if set.isSome ∧ custom ≠ [] then custom
      else
        -- if a card has a muid, use the default url; if not, use the fallback
        let muid := match set with
          | some st => card.getMuId st.shortName
          | none => 0
        let template := if muid ≠ 0 then env.picUrl else env.picUrlFallback
        let picUrl := substitute env card set muid template
        if placeholders.any (fun t => contains picUrl t) then []
        else picUrl

/-- `PictureLoader::picDownloadFailed()`. -/
def picDownloadFailed (s : PictureLoader) : PictureLoader :=
  let r := s.cardBeingDownloaded.nextSet
  if r.1 then
    { s with cardBeingDownloaded := r.2, loadQueue := r.2 :: s.loadQueue,
             startLoadQueueEmitted := s.startLoadQueueEmitted + 1 }
  else
    let s1 := { s with cardBeingDownloaded := PictureToLoad.new none }
    imageLoaded s1 s1.cardBeingDownloaded.getCard QImage.null

/-- `PictureLoader::startNextPicDownload()`. -/
def startNextPicDownload (env : Env) (s : PictureLoader) : PictureLoader :=
  match s.cardsToDownload with
  | [] => { s with cardBeingDownloaded := PictureToLoad.new none, downloadRunning := false }
  | first :: rest =>
    let s1 := { s with downloadRunning := true, cardBeingDownloaded := first,
                       cardsToDownload := rest }
    let picUrl := getPicUrl env s1
    if picUrl.isEmpty then picDownloadFailed { s1 with downloadRunning := false }
    else { s1 with requests := s1.requests ++ [picUrl] }

/-- The candidate folders of the local lookup (lines 130-136). -/
def picsPaths (picsPath setName correctedCardname : QString) : List QString :=
  (picsPath ++ "/CUSTOM/".toList ++ correctedCardname) ::
    (if setName.isEmpty then []
     else [picsPath ++ "/".toList ++ setName ++ "/".toList ++ correctedCardname,
           picsPath ++ "/downloadedPics/".toList ++ setName ++ "/".toList ++ correctedCardname])

/-- The loop over `picsPaths` (lines 144-158): the first image that decodes,
the bare name tried before the name with ".full". -/
def findPicture (env : Env) (files : List (QString × QByteArray)) : List QString → Option QImage
  | [] => none
  | p :: ps =>
    match env.readFile files p with
    | some image => some image
    | none =>
      match env.readFile files (p ++ ".full".toList) with
      | some image => some image
      | none => findPicture env files ps

/-- The `forever` loop of `processLoadQueue`; `none` when the fuel runs out
before the loop returns. -/
def loadQueueLoop (env : Env) : Nat → PictureLoader → Option PictureLoader
  | 0, _ => none
  | fuel + 1, s =>
    match s.loadQueue with
    | [] => some { s with loadQueueRunning := false }
    | first :: rest =>
      let s1 := { s with cardBeingLoaded := first, loadQueue := rest,
                         lookups := s.lookups ++ [(first.getCard, first.setIndex)] }
      let setName := s1.cardBeingLoaded.getSetName
      let correctedCardname := match s1.cardBeingLoaded.getCard with
        | some c => c.correctedName
        | none => []
      match findPicture env s1.files (picsPaths s1.picsPath setName correctedCardname) with
      | some image => loadQueueLoop env fuel (imageLoaded s1 s1.cardBeingLoaded.getCard image)
      | none =>
        if s1.picDownload then
          let s2 := { s1 with cardsToDownload := s1.cardsToDownload ++ [s1.cardBeingLoaded],
                              cardBeingLoaded := PictureToLoad.new none }
          if !s2.downloadRunning then loadQueueLoop env fuel (startNextPicDownload env s2)
          else loadQueueLoop env fuel s2
        else
          let r := s1.cardBeingLoaded.nextSet
          if r.1 then
            loadQueueLoop env fuel
              { s1 with loadQueue := r.2 :: s1.loadQueue, cardBeingLoaded := PictureToLoad.new none }
          else
            loadQueueLoop env fuel
              (imageLoaded { s1 with cardBeingLoaded := r.2 } r.2.getCard QImage.null)

/-- `PictureLoader::processLoadQueue()`. -/
def processLoadQueue (env : Env) (fuel : Nat) (s : PictureLoader) : Option PictureLoader :=
  if s.loadQueueRunning then some s
  else loadQueueLoop env fuel { s with loadQueueRunning := true }

/-- `PictureLoader::picDownloadFinished(reply)`. -/
def picDownloadFinished (env : Env) (s : PictureLoader) (reply : QNetworkReply) :
    PictureLoader :=
  if reply.statusCode = 301 ∨ reply.statusCode = 302 then
    { s with requests := s.requests ++ [reply.redirectionTarget] }
  else
    let picData := reply.data
    -- check if the image is blacklisted
    let md5sum := env.md5Hex picData
    if md5Blacklist.contains md5sum then
      startNextPicDownload env (picDownloadFailed s)
    else
      let extension0 := ".".toList ++ env.imageFormat picData
      let extension := if extension0 = ".jpeg".toList then ".jpg".toList else extension0
      match env.decode picData with
      | some testImage =>
        let setName := s.cardBeingDownloaded.getSetName
        let correctedName := match s.cardBeingDownloaded.getCard with
          | some c => c.correctedName
          | none => []
        if setName.isEmpty then
          startNextPicDownload env (imageLoaded s s.cardBeingDownloaded.getCard testImage)
        else if !env.mkpath (s.picsPath ++ "/downloadedPics/".toList ++ setName) then s
        else
          let newPic := s.picsPath ++ "/downloadedPics/".toList ++ setName ++ "/".toList ++
            correctedName ++ extension
          if !env.openWrite newPic then s
          else
            let s1 := { s with files := writeFile s.files newPic picData }
            startNextPicDownload env (imageLoaded s1 s1.cardBeingDownloaded.getCard testImage)
      | none => startNextPicDownload env (picDownloadFailed s)

/-- `PictureLoader::enqueueImageLoad(card)`. -/
def enqueueImageLoad (s : PictureLoader) (card : Option CardInfo) : PictureLoader :=
  -- avoid queueing the same card more than once
  if card = none ∨ card = s.cardBeingLoaded.getCard ∨ card = s.cardBeingDownloaded.getCard then s
  else if s.loadQueue.any (fun pic => pic.getCard = card) then s
  else
    { s with loadQueue := s.loadQueue ++ [PictureToLoad.new card],
             startLoadQueueEmitted := s.startLoadQueueEmitted + 1 }

/-- The size-qualified key built in `getPixmap` (line 376). -/
def sizekey (key : QString) (size : QSize) : QString :=
  key ++ [Char.ofNat 95] ++ number size.width ++ number size.height

/-- `PictureLoader::getPixmap(pixmap, card, size)`: the pixmap handed back and
the loader afterwards. -/
def getPixmap (env : Env) (s : PictureLoader) (card : Option CardInfo) (size : QSize) :
    QPixmap × PictureLoader :=
  let fallback : QPixmap × PictureLoader :=
    -- load a temporary back picture
    let backCacheKey := "_trice_card_back_".toList ++ number size.width ++ number size.height
    let r : QPixmap × PictureLoader :=
      match cacheFind s.pixmapCache backCacheKey with
      | some pixmap => (pixmap, s)
      | none =>
        let pixmap := env.scaled env.cardBack size
        (pixmap, { s with pixmapCache := cacheInsert s.pixmapCache backCacheKey pixmap })
    match card with
    | some c => (r.1, enqueueImageLoad r.2 (some c))
    | none => r
  match card with
  | some c =>
    -- search for an exact size copy of the picure in cache
    let key := c.pixmapCacheKey
    match cacheFind s.pixmapCache (sizekey key size) with
    | some pixmap => (pixmap, s)
    | none =>
      -- load the image and create a copy of the correct size
      match cacheFind s.pixmapCache key with
      | some bigPixmap =>
        let pixmap := env.scaled bigPixmap size
        (pixmap, { s with pixmapCache := cacheInsert s.pixmapCache (sizekey key size) pixmap })
      | none => fallback
  | none => fallback

/-- `PictureLoader::clearPixmapCache(card)`. -/
def clearPixmapCache (s : PictureLoader) (card : Option CardInfo) : PictureLoader :=
  match card with
  | some c => { s with pixmapCache := cacheRemove s.pixmapCache c.pixmapCacheKey }
  | none => s

/-- `PictureLoader::clearPixmapCache()`. -/
def clearAllPixmapCache (s : PictureLoader) : PictureLoader :=
  { s with pixmapCache := [] }

end PictureLoader

/-! ## The loader as a transition system -/

/-- One step of the loader: a call of one of its operations. -/
inductive Step (env : Env) : PictureLoader → PictureLoader → Prop
  | enqueueImageLoad (s : PictureLoader) (card : Option CardInfo) :
      Step env s (PictureLoader.enqueueImageLoad s card)
  | processLoadQueue (s s1 : PictureLoader) (fuel : Nat) :
      PictureLoader.processLoadQueue env fuel s = some s1 → Step env s s1
  | startNextPicDownload (s : PictureLoader) :
      Step env s (PictureLoader.startNextPicDownload env s)
  | picDownloadFailed (s : PictureLoader) : Step env s (PictureLoader.picDownloadFailed s)
  | picDownloadFinished (s : PictureLoader) (reply : QNetworkReply) :
      Step env s (PictureLoader.picDownloadFinished env s reply)

/-- The states the loader reaches from its initial state. -/
inductive Reachable (env : Env) : PictureLoader → Prop
  | init (picsPath : QString) (picDownload : Bool) :
      Reachable env (PictureLoader.init picsPath picDownload)
  | step (s s1 : PictureLoader) : Reachable env s → Step env s s1 → Reachable env s1

/-- How often a card occurs across the load queue, the being-looked-up slot
and the being-downloaded slot. -/
def occurrences (s : PictureLoader) (card : CardInfo) : Nat :=
  (s.loadQueue.map PictureToLoad.getCard).count (some card) +
    (if s.cardBeingLoaded.getCard = some card then 1 else 0) +
    (if s.cardBeingDownloaded.getCard = some card then 1 else 0)

/-! ## Worked examples: an environment and some cards -/

/-- An environment for the worked examples: identity encodings, every payload
but the empty one decodes, the payload `[0]` has the blacklisted hash, a file
is read back under its exact name, directories and files can be created. -/
def demoEnv : Env :=
  { toPercentEncoding := fun s => s
    toLower := fun s => s
    md5Hex := fun d => if d = [0] then "db0c48db407a907c16ade38de048a441".toList else []
    imageFormat := fun _ => "jpeg".toList
    decode := fun d => if d = [] then none else some { rows := [d] }
    readFile := fun files path =>
      match files.lookup path with
      | some d => if d = [] then none else some { rows := [d] }
      | none => none
    mkpath := fun _ => true
    openWrite := fun _ => true
    scaled := fun p size => { rows := [size.width.toNat, size.height.toNat] :: p.rows }
    cardBack := { rows := [[0]] }
    picUrl := "http://pics/!cardid!".toList
    picUrlFallback := "http://pics/!name!".toList }

/-- The example environment on a disk where no directory can be created. -/
def readOnlyEnv : Env := { demoEnv with mkpath := fun _ => false }

/-- An example printing. -/
def demoSet (code : String) (key : Int) (enabled : Bool) : CardSet :=
  { shortName := code.toList, longName := code.toList, correctedShortName := code.toList,
    sortKey := key, enabled := enabled }

/-- An example card with the given printings. -/
def demoCard (name : String) (sets : List CardSet) : CardInfo :=
  { name := name.toList, correctedName := name.toList, sets := sets, customPicURLs := [],
    muIds := [], upsideDownArt := false, pixmapCacheKey := "card_".toList ++ name.toList }

/-- An example card with one printing. -/
def cardA : CardInfo := demoCard "A" [demoSet "S1" 0 true]

/-- Another example card with one printing. -/
def cardB : CardInfo := demoCard "B" [demoSet "S1" 0 true]

/-- An example card with three printings. -/
def cardThree : CardInfo :=
  demoCard "T" [demoSet "S1" 2 true, demoSet "S2" 1 false, demoSet "S3" 1 true]

/-- An example card without printings. -/
def cardNoSets : CardInfo := demoCard "N" []

/-- A reply with status 200 and the given payload. -/
def okReply (data : QByteArray) : QNetworkReply :=
  { statusCode := 200, redirectionTarget := [], data := data }

/-- A run in which a card waiting for its download is enqueued a second time.
First card A is enqueued and looked up, so that its download is under way. -/
def requeueRun1 : PictureLoader :=
  (PictureLoader.processLoadQueue demoEnv 2
    (PictureLoader.enqueueImageLoad (PictureLoader.init "pics".toList true) (some cardA))).getD
    (PictureLoader.init [] false)

/-- Then card B is enqueued and looked up; it is parked in `cardsToDownload`. -/
def requeueRun2 : PictureLoader :=
  (PictureLoader.processLoadQueue demoEnv 2
    (PictureLoader.enqueueImageLoad requeueRun1 (some cardB))).getD (PictureLoader.init [] false)

/-- Then card B is requested again, and the download of A finishes. -/
def requeueRun3 : PictureLoader :=
  PictureLoader.picDownloadFinished demoEnv
    (PictureLoader.enqueueImageLoad requeueRun2 (some cardB)) (okReply [1])

/-- The example environment on a disk where no file can be opened for writing. -/
def noWriteEnv : Env := { demoEnv with openWrite := fun _ => false }

/-- An example card whose custom URL for its printing holds a placeholder token. -/
def cardCustom : CardInfo :=
  { demoCard "C" [demoSet "S1" 0 true] with
    customPicURLs := [("S1".toList, "http://x/!name!".toList)] }

/-- An example card with a numeric id for its printing. -/
def cardMuid : CardInfo :=
  { demoCard "M" [demoSet "S1" 0 true] with muIds := [("S1".toList, 7)] }

/-- The loader after the card was enqueued and `processLoadQueue` has run once,
with download enabled. -/
def afterLookup (env : Env) (card : CardInfo) : Option PictureLoader :=
  PictureLoader.processLoadQueue env 2
    (PictureLoader.enqueueImageLoad (PictureLoader.init "pics".toList true) (some card))

/-- The loader while the card is being downloaded: `afterLookup` has issued the
request for it. -/
def downloading (env : Env) (card : CardInfo) : PictureLoader :=
  (afterLookup env card).getD (PictureLoader.init [] false)

/-- The loader with the full-resolution pixmap of card A in the cache. -/
def cachedA : PictureLoader :=
  PictureLoader.imageLoaded (PictureLoader.init "pics".toList false) (some cardA)
    { rows := [[1, 2], [3, 4]] }

/-! ## The remote URL as the specification words it -/

/-- The placeholder tokens of a card and the values that replace them. -/
def cardPlaceholders (env : Env) (card : CardInfo) (muid : Int) : List (QString × QString) :=
  [("!name!".toList, env.toPercentEncoding card.correctedName),
   ("!name_lower!".toList, env.toPercentEncoding (env.toLower card.correctedName)),
   ("!cardid!".toList, env.toPercentEncoding (number muid))]

/-- The placeholder tokens of a printing and the values that replace them. -/
def setPlaceholders (env : Env) (set : CardSet) : List (QString × QString) :=
  [("!setcode!".toList, env.toPercentEncoding set.shortName),
   ("!setcode_lower!".toList, env.toPercentEncoding (env.toLower set.shortName)),
   ("!setname!".toList, env.toPercentEncoding set.longName),
   ("!setname_lower!".toList, env.toPercentEncoding (env.toLower set.longName))]

/-- Replace each token of the table, in turn, by its value. -/
def replaceAll (table : List (QString × QString)) (template : QString) : QString :=
  table.foldl (fun u tv => replace u tv.1 tv.2) template

/-- A URL in which a placeholder is left is not usable: the empty string
stands for it. -/
def usable (url : QString) : QString :=
  if PictureLoader.placeholders.any (fun t => contains url t) then [] else url

/-! ## Bulk prefetch -/

/-- The `for` loop of `cacheCardPixmaps` over the entries still to visit. -/
def PictureLoader.cacheCardPixmapsLoop (s : PictureLoader) :
    List (Option CardInfo) → PictureLoader
  | [] => s
  | none :: rest => PictureLoader.cacheCardPixmapsLoop s rest
  | some card :: rest =>
    if (cacheFind s.pixmapCache card.pixmapCacheKey).isSome then
      PictureLoader.cacheCardPixmapsLoop s rest
    else
      PictureLoader.cacheCardPixmapsLoop (PictureLoader.enqueueImageLoad s (some card)) rest

/-- `PictureLoader::cacheCardPixmaps(cards)`. -/
def PictureLoader.cacheCardPixmaps (s : PictureLoader) (cards : List (Option CardInfo)) :
    PictureLoader :=
  -- never cache more than 300 cards at once for a single deck
  let max := min cards.length 300
  PictureLoader.cacheCardPixmapsLoop s (cards.take max)

/-- The entries the specification lets `cacheCardPixmaps` enqueue: among the
first 300, those that are not null and have no full-resolution pixmap cached. -/
def prefetchCandidates (s : PictureLoader) (cards : List (Option CardInfo)) :
    List (Option CardInfo) :=
  (cards.take 300).filter (fun entry =>
    match entry with
    | none => false
    | some card => (cacheFind s.pixmapCache card.pixmapCacheKey).isNone)

/-! ## The loader and the network

`QNetworkAccessManager` emits `finished` once for every request passed to
`get`; the constructor connects it to `picDownloadFinished`. -/

/-- The loader together with the number of replies that have finished. -/
structure Network where
  loader : PictureLoader
  finished : Nat

/-- The number of requests whose reply has not finished yet. -/
def Network.outstanding (n : Network) : Nat := n.loader.requests.length - n.finished

/-- Single flight, for a loader of which `finished` replies have finished: at
most one request is outstanding, and none when no download is marked as
running. -/
def SingleFlight (s : PictureLoader) (finished : Nat) : Prop :=
  finished ≤ s.requests.length ∧ s.requests.length ≤ finished + 1 ∧
    (s.downloadRunning = false → s.requests.length = finished)

/-- One step of the loader with its network. `picDownloadFinished` runs when a
reply finishes. The helpers `picDownloadFailed` and `startNextPicDownload` run
inside the other operations; as steps of their own they are taken at the
condition under which the code calls `startNextPicDownload`: no request is
outstanding. -/
inductive NetStep (env : Env) : Network → Network → Prop
  | enqueueImageLoad (n : Network) (card : Option CardInfo) :
      NetStep env n { n with loader := PictureLoader.enqueueImageLoad n.loader card }
  | processLoadQueue (n : Network) (s1 : PictureLoader) (fuel : Nat) :
      PictureLoader.processLoadQueue env fuel n.loader = some s1 →
      NetStep env n { n with loader := s1 }
  | picDownloadFinished (n : Network) (reply : QNetworkReply) :
      n.finished < n.loader.requests.length →
      NetStep env n
        { loader := PictureLoader.picDownloadFinished env n.loader reply,
          finished := n.finished + 1 }
  | picDownloadFailed (n : Network) :
      NetStep env n { n with loader := PictureLoader.picDownloadFailed n.loader }
  | startNextPicDownload (n : Network) :
      n.outstanding = 0 →
      NetStep env n { n with loader := PictureLoader.startNextPicDownload env n.loader }

/-- The states of loader and network reached from the initial state. -/
inductive NetReachable (env : Env) : Network → Prop
  | init (picsPath : QString) (picDownload : Bool) :
      NetReachable env { loader := PictureLoader.init picsPath picDownload, finished := 0 }
  | step (n n1 : Network) : NetReachable env n → NetStep env n n1 → NetReachable env n1

/-! ## Further worked examples -/

/-- What the ranking looks at in a printing: enabled-state and sort key. -/
def rankOf (s : CardSet) : Bool × Int := (s.enabled, s.sortKey)

/-- The order of the ranking on what it looks at: enabled before disabled,
then the smaller sort key first. -/
def rankLe (p q : Bool × Int) : Prop :=
  (p.1 = true ∧ q.1 = false) ∨ (p.1 = q.1 ∧ p.2 ≤ q.2)

/-- Four printings that tie in the ranking. -/
def tiedSets : List CardSet :=
  [demoSet "S1" 0 true, demoSet "S2" 0 true, demoSet "S3" 0 true, demoSet "S4" 0 true]

/-- The loader with a picture of card A on disk and card A enqueued. -/
def withPictureA : PictureLoader :=
  PictureLoader.enqueueImageLoad
    { PictureLoader.init "pics".toList false with files := [("pics/CUSTOM/A".toList, [1])] }
    (some cardA)

/-- The loader after `processLoadQueue` has found the picture of card A. -/
def foundA : PictureLoader :=
  (PictureLoader.processLoadQueue demoEnv 2 withPictureA).getD (PictureLoader.init [] false)

/-- The loader after `processLoadQueue` has given up on the card with three
printings. -/
def notFoundThree : PictureLoader :=
  (PictureLoader.processLoadQueue demoEnv 4
    (PictureLoader.enqueueImageLoad (PictureLoader.init "pics".toList false)
      (some cardThree))).getD (PictureLoader.init [] false)

/-- The network while card A is being downloaded. -/
def downloadingNet : Network := { loader := downloading demoEnv cardA, finished := 0 }

/-! ## Command-line arguments (main.cpp)

An argument `argv[i]` is the list of its characters; reading at the position
after the last one gives the terminating NUL, and a NUL among the characters
ends the string as it does in C. -/

/-- The NUL character that ends a C string. -/
def NUL : Char := Char.ofNat 0

/-- The character `s[j]` of a C string. -/
def charAt (s : List Char) (j : Nat) : Char := s.getD j NUL

/-- The text of a C string: what stands before the first NUL. It is what
`QString(argv[i])` holds. -/
def cstring (s : List Char) : List Char := s.takeWhile (fun c => c != NUL)

/-- The constant `xScheme` of `main`. -/
def xScheme : List Char := "cockatrice://".toList

/-- The value `xSchemeLen = strlen(xScheme)`. -/
def xSchemeLen : Nat := (cstring xScheme).length

/-- The loop of line 146 from position `j` on: the value of `isXSchemeHandle`
when the loop ends, `none` when the fuel runs out before. -/
def xSchemeLoop (arg : List Char) : Nat → Nat → Option Bool
  | 0, _ => none
  | fuel + 1, j =>
    let isXSchemeHandle := charAt arg j != NUL && charAt arg j == charAt xScheme j
    if isXSchemeHandle && decide (j < xSchemeLen) then xSchemeLoop arg fuel (j + 1)
    else some isXSchemeHandle

/-- The variables `state` and `isDeckFile` of the extension scanner. -/
structure ScanState where
  state : Int
  isDeckFile : Bool
deriving DecidableEq, Repr

/-- The `switch` of lines 164-200 on one character. -/
def scanStep (c : Char) (st : ScanState) : ScanState :=
  if c = '.' then
    -- 0 -> 1 if .
    { st with state := 1 }
  else if c = 'c' then
    -- 1 -> 2 if c
    { st with state := if st.state = 1 then 2 else 0 }
  else if c = 'o' then
    -- 2 -> 3 if o
    { st with state := if st.state = 2 then 3 else 0 }
  else if c = 'd' then
    -- isDeckFile = true, then falls through to the case of r
    { state := if st.state = 3 then 4 else 0, isDeckFile := true }
  else if c = 'r' then
    { st with state := if st.state = 3 then 4 else 0 }
  else
    -- Reset state
    { state := 0, isDeckFile := false }

/-- The loop `for (int j = 0; argv[i][j] != 0; j++)` of line 163. -/
def scanLoop : List Char → ScanState → ScanState
  | [], st => st
  | c :: rest, st => if c = NUL then st else scanLoop rest (scanStep c st)

/-- The extension scanner of lines 151-201: `state = 0`, `isDeckFile = 1`,
then the loop. -/
def scanExtension (arg : List Char) : ScanState :=
  scanLoop arg { state := 0, isDeckFile := true }

/-- The variables `replays`, `decks`, `xSchemeHandle` and `xSchemeFlag` of `main`. -/
structure ArgState where
  replays : List QString
  decks : List QString
  xSchemeHandle : QString
  xSchemeFlag : Bool
deriving DecidableEq, Repr

/-- The body of the loop over the arguments (lines 141-226) for one argument;
`currentPath` is `QDir::currentPath()`. -/
def processArg (currentPath : QString) (fuel : Nat) (a : ArgState) (arg : List Char) :
    Option ArgState :=
  -- Check arg matches cockatrice://*
  match xSchemeLoop arg fuel 0 with
  | none => none
  | some isXSchemeHandle =>
    if !isXSchemeHandle then
      -- Check arg matches *.co(r|d) via a finite state machine
      let st := scanExtension arg
      -- If accepting state
      if st.state = 4 then
        let path := if !contains (cstring arg) ['/'] then currentPath ++ ['/'] else []
        if st.isDeckFile then some { a with decks := a.decks ++ [path ++ cstring arg] }
        else some { a with replays := a.replays ++ [path ++ cstring arg] }
      else some a
    else
      some { a with xSchemeHandle := cstring arg, xSchemeFlag := true }

/-- The loop `for (int i = 1; i < argc; i++)` over the arguments left. -/
def processArgsLoop (currentPath : QString) (fuel : Nat) :
    ArgState → List (List Char) → Option ArgState
  | a, [] => some a
  | a, arg :: rest =>
    match processArg currentPath fuel a arg with
    | none => none
    | some a1 => processArgsLoop currentPath fuel a1 rest

/-- The argument handling of `main` (lines 128-227) for `argv`, whose first
entry is the command. -/
def processArgs (currentPath : QString) (fuel : Nat) (argv : List (List Char)) :
    Option ArgState :=
  processArgsLoop currentPath fuel
    { replays := [], decks := [], xSchemeHandle := [], xSchemeFlag := false } argv.tail

/-! # Proofs

## Qt's `qSort` sorts -/

theorem IsRanking.irrefl {α : Type} {lt : α → α → Bool} (h : IsRanking lt) (a : α) : lt a a = false := by
  cases hx : lt a a
  · rfl
  · have := h.asymm a a hx; rw [hx] at this; exact this

section QSortProofs

variable {α : Type} [Inhabited α]

theorem length_qSwap (l : List α) (i j : Nat) : (qSwap l i j).length = l.length := by
  simp [qSwap]

theorem deref_eq_getElem (l : List α) (i : Nat) (h : i < l.length) : deref l i = l[i] := by
  simp [deref, List.getD_eq_getElem?_getD, List.getElem?_eq_getElem h]

theorem deref_qSwap (l : List α) (i j k : Nat) (hi : i < l.length) (hj : j < l.length) :
    deref (qSwap l i j) k = if k = j then deref l i else if k = i then deref l j else deref l k := by
  unfold qSwap deref
  simp only [List.getD_eq_getElem?_getD, List.getElem?_set]
  by_cases h1 : k = j
  · subst h1; simp [hj]
  · by_cases h2 : k = i
    · subst h2
      have : ¬ j = k := fun h => h1 h.symm
      simp [this, h1, hi]
    · have h3 : ¬ j = k := fun h => h1 h.symm
      have h4 : ¬ i = k := fun h => h2 h.symm
      simp [h1, h2, h3, h4]

theorem perm_qSwap (l : List α) (i j : Nat) (hi : i < l.length) (hj : j < l.length) :
    (qSwap l i j).Perm l := by
  classical
  rw [List.perm_iff_count]
  intro a
  unfold qSwap
  rw [List.count_set _ _ _ _ (by simpa using hj), List.count_set _ _ _ _ hi]
  simp only [deref_eq_getElem l i hi, deref_eq_getElem l j hj, List.getElem_set]
  have h1 := List.count_pos_iff.mpr (List.getElem_mem hi)
  have h2 := List.count_pos_iff.mpr (List.getElem_mem hj)
  by_cases hij : i = j
  · subst hij
    simp only [if_true, beq_iff_eq]
    split_ifs with h <;> [subst h; skip] <;> omega
  · simp only [hij, if_false, beq_iff_eq]
    by_cases ha : l[i] = a <;> by_cases hb : l[j] = a <;> simp [ha, hb] <;> try omega
    all_goals (rw [ha] at h1; omega)


theorem scanLow_spec (lt : α → α → Bool) (hlt : IsRanking lt) (l : List α) (e high : Nat) :
    ∀ (n low : Nat), low ≤ high → high - low ≤ n →
      (∀ i, i < low → lt (deref l e) (deref l i) = false) →
      low ≤ scanLow lt l e high n low ∧ scanLow lt l e high n low ≤ high ∧
      (∀ i, i < scanLow lt l e high n low → lt (deref l e) (deref l i) = false) ∧
      (scanLow lt l e high n low < high →
        lt (deref l (scanLow lt l e high n low)) (deref l e) = false) := by
  intro n
  induction n with
  | zero =>
    intro low h1 h2 h3
    have : low = high := by omega
    subst this
    simp [scanLow]; exact h3
  | succ n ih =>
    intro low h1 h2 h3
    unfold scanLow
    split_ifs with hc
    · obtain ⟨hc1, hc2⟩ := hc
      have := ih (low + 1) (by omega) (by omega) (by
        intro i hi
        by_cases hil : i < low
        · exact h3 i hil
        · have : i = low := by omega
          subst this
          exact hlt.asymm _ _ hc2)
      refine ⟨by omega, this.2.1, this.2.2.1, this.2.2.2⟩
    · refine ⟨le_refl _, h1, h3, ?_⟩
      intro hlow
      cases hx : lt (deref l low) (deref l e)
      · rfl
      · exact absurd ⟨hlow, hx⟩ hc

theorem scanHigh_spec (lt : α → α → Bool) (hlt : IsRanking lt) (l : List α) (e low : Nat) :
    ∀ (n high : Nat), low ≤ high → high - low ≤ n → high < e →
      (∀ i, high < i → i < e → lt (deref l i) (deref l e) = false) →
      low ≤ scanHigh lt l e low n high ∧ scanHigh lt l e low n high ≤ high ∧
      (∀ i, scanHigh lt l e low n high < i → i < e → lt (deref l i) (deref l e) = false) ∧
      (low < scanHigh lt l e low n high →
        lt (deref l e) (deref l (scanHigh lt l e low n high)) = false) := by
  intro n
  induction n with
  | zero =>
    intro high h1 h2 he h3
    have : low = high := by omega
    subst this
    simp [scanHigh]; exact h3
  | succ n ih =>
    intro high h1 h2 he h3
    unfold scanHigh
    split_ifs with hc
    · obtain ⟨hc1, hc2⟩ := hc
      have := ih (high - 1) (by omega) (by omega) (by omega) (by
        intro i hi hie
        by_cases hil : high < i
        · exact h3 i hil hie
        · have : i = high := by omega
          subst this
          exact hlt.asymm _ _ hc2)
      refine ⟨this.1, by omega, this.2.2.1, this.2.2.2⟩
    · refine ⟨h1, le_refl _, h3, ?_⟩
      intro hlow
      cases hx : lt (deref l e) (deref l high)
      · rfl
      · exact absurd ⟨hlow, hx⟩ hc


theorem partitionLoop_spec (lt : α → α → Bool) (hlt : IsRanking lt) (e : Nat) (l0 : List α) (p : α) :
    ∀ (n : Nat) (l : List α) (low high : Nat), e < l.length → high + 1 - low ≤ n →
      low ≤ high + 1 → high < e → deref l e = p → l.Perm l0 →
      (∀ i, i < low → lt p (deref l i) = false) →
      (∀ i, high < i → i < e → lt (deref l i) p = false) →
      (partitionLoop lt e n l low high).1.length = l.length ∧
      deref (partitionLoop lt e n l low high).1 e = p ∧
      (partitionLoop lt e n l low high).1.Perm l0 ∧
      (partitionLoop lt e n l low high).2 ≤ e ∧
      (∀ i, i < (partitionLoop lt e n l low high).2 →
        lt p (deref (partitionLoop lt e n l low high).1 i) = false) ∧
      (∀ i, (partitionLoop lt e n l low high).2 < i → i < e →
        lt (deref (partitionLoop lt e n l low high).1 i) p = false) := by
  intro n
  induction n with
  | zero =>
    intro l low high he hm hlh hhe hp hperm hL hR
    have heq : partitionLoop lt e 0 l low high = (l, low) := rfl
    rw [heq]
    exact ⟨rfl, hp, hperm, by omega, hL, fun i hi hie => hR i (by omega) hie⟩
  | succ n ih =>
    intro l low high he hm hlh hhe hp hperm hL hR
    subst hp
    by_cases h1 : low < high
    · have sl := scanLow_spec lt hlt l e high (high - low) low (by omega) (le_refl _) hL
      generalize hlow1 : scanLow lt l e high (high - low) low = low1 at sl
      have sh := scanHigh_spec lt hlt l e low1 (high - low1) high sl.2.1 (le_refl _) hhe hR
      generalize hhigh1 : scanHigh lt l e low1 (high - low1) high = high1 at sh
      have heq : partitionLoop lt e (n + 1) l low high =
          if low1 < high1 then
            partitionLoop lt e n (qSwap l low1 high1) (low1 + 1) (high1 - 1)
          else (l, low1) := by
        simp only [partitionLoop, if_pos h1, hlow1, hhigh1]
      rw [heq]
      by_cases h2 : low1 < high1
      · -- one round: scan, swap, continue
        rw [if_pos h2]
        have hl1 : low1 < l.length := by omega
        have hh1 : high1 < l.length := by omega
        have key := ih (qSwap l low1 high1) (low1 + 1) (high1 - 1)
          (by rw [length_qSwap]; exact he) (by omega) (by omega) (by omega)
          (by rw [deref_qSwap l low1 high1 e hl1 hh1]
              rw [if_neg (by omega), if_neg (by omega)])
          ((perm_qSwap l low1 high1 hl1 hh1).trans hperm)
          (by
            intro i hi
            rw [deref_qSwap l low1 high1 i hl1 hh1]
            by_cases hil : i = low1
            · rw [if_neg (by omega), if_pos hil]; exact sh.2.2.2 h2
            · rw [if_neg (by omega), if_neg hil]; exact sl.2.2.1 i (by omega))
          (by
            intro i hi hie
            rw [deref_qSwap l low1 high1 i hl1 hh1]
            by_cases hil : i = high1
            · rw [if_pos hil]; exact sl.2.2.2 (by omega)
            · rw [if_neg hil, if_neg (by omega)]; exact sh.2.2.1 i (by omega) hie)
        rw [length_qSwap] at key
        exact key
      · rw [if_neg h2]
        exact ⟨rfl, rfl, hperm, by omega, sl.2.2.1, fun i hi hie => sh.2.2.1 i (by omega) hie⟩
    · have heq : partitionLoop lt e (n + 1) l low high = (l, low) := by
        simp only [partitionLoop, if_neg h1]
      rw [heq]
      exact ⟨rfl, rfl, hperm, by omega, hL, fun i hi hie => hR i (by omega) hie⟩


theorem qSortHelper_small2 (lt : α → α → Bool) (hlt : IsRanking lt) (x y : α) :
    let l1 := if lt (deref [x, y] 1) (deref [x, y] 0) then qSwap [x, y] 1 0 else [x, y]
    l1.Perm [x, y] ∧ Ascending lt l1 := by
  simp only [deref, qSwap, List.getD_cons_zero, List.getD_cons_succ, List.set_cons_zero,
    List.set_cons_succ]
  cases h : lt y x
  · simp [Ascending, h]
  · simp only [if_true]
    refine ⟨List.Perm.swap _ _ _, ?_⟩
    simp [Ascending, hlt.asymm _ _ h]


theorem cond_qSwap (c : Bool) (l : List α) (i j : Nat) (hi : i < l.length) (hj : j < l.length) :
    (if c = true then qSwap l i j else l).Perm l ∧
      (if c = true then qSwap l i j else l).length = l.length := by
  cases c
  · exact ⟨List.Perm.refl _, rfl⟩
  · exact ⟨perm_qSwap l i j hi hj, length_qSwap l i j⟩

theorem qSortHelper_small3 (lt : α → α → Bool) (hlt : IsRanking lt) (x y z : α) :
    let l1 := if lt (deref [x, y, z] 2) (deref [x, y, z] 0) then qSwap [x, y, z] 2 0 else [x, y, z]
    let l2 := if lt (deref l1 1) (deref l1 0) then qSwap l1 1 0 else l1
    let l3 := if lt (deref l2 2) (deref l2 1) then qSwap l2 2 1 else l2
    l3.Perm [x, y, z] ∧ Ascending lt l3 := by
  intro l1 l2 l3
  have p1 := cond_qSwap (lt (deref [x, y, z] 2) (deref [x, y, z] 0)) [x, y, z] 2 0
    (by simp) (by simp)
  have p2 := cond_qSwap (lt (deref l1 1) (deref l1 0)) l1 1 0
    (by rw [p1.2]; simp) (by rw [p1.2]; simp)
  have p3 := cond_qSwap (lt (deref l2 2) (deref l2 1)) l2 2 1
    (by rw [p2.2, p1.2]; simp) (by rw [p2.2, p1.2]; simp)
  refine ⟨p3.1.trans (p2.1.trans p1.1), ?_⟩
  -- after the first exchange the last element is not below the first
  have s1 : ∃ a b c, l1 = [a, b, c] ∧ lt c a = false := by
    show ∃ a b c, (if lt (deref [x, y, z] 2) (deref [x, y, z] 0) then
      qSwap [x, y, z] 2 0 else [x, y, z]) = [a, b, c] ∧ lt c a = false
    cases h : lt z x
    · exact ⟨x, y, z, by simp [deref, h], h⟩
    · exact ⟨z, y, x, by simp [deref, qSwap, h], hlt.asymm _ _ h⟩
  obtain ⟨a, b, c, e1, hca⟩ := s1
  have s2 : ∃ a b, l2 = [a, b, c] ∧ lt c a = false ∧ lt b a = false := by
    show ∃ a b, (if lt (deref l1 1) (deref l1 0) then qSwap l1 1 0 else l1) = [a, b, c] ∧ _
    rw [e1]
    cases h : lt b a
    · exact ⟨a, b, by simp [deref, h], hca, h⟩
    · exact ⟨b, a, by simp [deref, qSwap, h],
        hlt.trans _ _ _ (hlt.asymm _ _ h) hca, hlt.asymm _ _ h⟩
  obtain ⟨a2, b2, e2, hca2, hba2⟩ := s2
  show Ascending lt (if lt (deref l2 2) (deref l2 1) then qSwap l2 2 1 else l2)
  rw [e2]
  cases h : lt c b2
  · simp [deref, h, Ascending, hca2, hba2]
  · simp [deref, qSwap, h, Ascending, hca2, hba2, hlt.asymm _ _ h]


theorem qSortHelper_spec (lt : α → α → Bool) (hlt : IsRanking lt) :
    ∀ (fuel : Nat) (l : List α),
      (qSortHelper lt fuel l).Perm l ∧ (l.length ≤ fuel → Ascending lt (qSortHelper lt fuel l)) := by
  intro fuel
  induction fuel with
  | zero =>
    intro l
    refine ⟨List.Perm.refl _, fun h => ?_⟩
    have : l = [] := List.length_eq_zero.mp (by omega)
    subst this
    simp [qSortHelper, Ascending]
  | succ fuel ih =>
    intro l
    by_cases h2 : l.length < 2
    · have heq : qSortHelper lt (fuel + 1) l = l := by simp only [qSortHelper, if_pos h2]
      rw [heq]
      refine ⟨List.Perm.refl _, fun _ => ?_⟩
      match l, h2 with
      | [], _ => simp [Ascending]
      | [x], _ => simp [Ascending]
    · by_cases h3 : l.length = 2
      · match l, h3 with
        | [x, y], _ =>
          have := qSortHelper_small2 lt hlt x y
          exact ⟨this.1, fun _ => this.2⟩
      · by_cases h4 : l.length = 3
        · match l, h4 with
          | [x, y, z], _ =>
            have := qSortHelper_small3 lt hlt x y z
            have heq : qSortHelper lt (fuel + 1) [x, y, z] =
                (let l1 := if lt (deref [x, y, z] 2) (deref [x, y, z] 0) then
                    qSwap [x, y, z] 2 0 else [x, y, z]
                 let l2 := if lt (deref l1 1) (deref l1 0) then qSwap l1 1 0 else l1
                 if lt (deref l2 2) (deref l2 1) then qSwap l2 2 1 else l2) := by
              simp only [qSortHelper, List.length_cons, List.length_nil]
              rfl
            rw [heq]
            exact ⟨this.1, fun _ => this.2⟩
        · -- the general case: median of three, partition, recursion
          have hlen : 4 ≤ l.length := by omega
          have p1 := cond_qSwap (lt (deref l (l.length - 1)) (deref l 0)) l (l.length - 1) 0
            (by omega) (by omega)
          generalize hl1 : (if lt (deref l (l.length - 1)) (deref l 0) = true then
            qSwap l (l.length - 1) 0 else l) = l1 at p1
          have p2 := cond_qSwap (lt (deref l1 (l.length / 2)) (deref l1 0)) l1 (l.length / 2) 0
            (by omega) (by omega)
          generalize hl2 : (if lt (deref l1 (l.length / 2)) (deref l1 0) = true then
            qSwap l1 (l.length / 2) 0 else l1) = l2 at p2
          have p3 := cond_qSwap (lt (deref l2 (l.length - 1)) (deref l2 (l.length / 2))) l2
            (l.length - 1) (l.length / 2) (by omega) (by omega)
          generalize hl3 : (if lt (deref l2 (l.length - 1)) (deref l2 (l.length / 2)) = true then
            qSwap l2 (l.length - 1) (l.length / 2) else l2) = l3 at p3
          have p4 := perm_qSwap l3 (l.length / 2) (l.length - 1) (by omega) (by omega)
          have n4 := length_qSwap l3 (l.length / 2) (l.length - 1)
          generalize hl4 : qSwap l3 (l.length / 2) (l.length - 1) = l4 at p4 n4
          have hperm4 : l4.Perm l := p4.trans (p3.1.trans (p2.1.trans p1.1))
          have hlen4 : l4.length = l.length := by omega
          have ps := partitionLoop_spec lt hlt (l.length - 1) l (deref l4 (l.length - 1))
            l.length l4 0 (l.length - 1 - 1) (by omega) (by omega) (by omega) (by omega) rfl
            hperm4 (fun i hi => absurd hi (Nat.not_lt_zero i)) (fun i h1 h2 => by omega)
          generalize hr : partitionLoop lt (l.length - 1) l.length l4 0 (l.length - 1 - 1) = r at ps
          generalize hp : deref l4 (l.length - 1) = p at ps
          obtain ⟨rlen, rp, rperm, rle, rL, rR⟩ := ps
          -- the final position of the pivot
          have hlow : ∃ low, (if lt (deref r.1 r.2) (deref r.1 (l.length - 1)) = true then
              r.2 + 1 else r.2) = low ∧ low ≤ l.length - 1 ∧
              (∀ i, i < low → lt p (deref r.1 i) = false) ∧
              (∀ i, low ≤ i → i < l.length - 1 → lt (deref r.1 i) p = false) := by
            rw [rp]
            cases hc : lt (deref r.1 r.2) p
            · refine ⟨r.2, by simp, rle, rL, ?_⟩
              intro i hi hie
              by_cases hir : i = r.2
              · rw [hir]; exact hc
              · exact rR i (by omega) hie
            · have hne : r.2 ≠ l.length - 1 := by
                intro he
                rw [he, rp, hlt.irrefl] at hc
                exact Bool.noConfusion hc
              refine ⟨r.2 + 1, by simp, by omega, ?_, fun i hi hie => rR i (by omega) hie⟩
              intro i hi
              by_cases hir : i = r.2
              · rw [hir]; exact hlt.asymm _ _ hc
              · exact rL i (by omega)
          obtain ⟨low, hloweq, hlowle, hL, hR⟩ := hlow
          have hrlen : r.1.length = l.length := by omega
          have p5 := perm_qSwap r.1 (l.length - 1) low (by omega) (by omega)
          have n5 := length_qSwap r.1 (l.length - 1) low
          have d5 := deref_qSwap r.1 (l.length - 1) low
          generalize hl5 : qSwap r.1 (l.length - 1) low = l5 at p5 n5 d5
          have heq : qSortHelper lt (fuel + 1) l =
              qSortHelper lt fuel (l5.take low) ++
                deref l5 low :: qSortHelper lt fuel (l5.drop (low + 1)) := by
            simp only [qSortHelper, if_neg h2, if_neg h3, if_neg h4, hl1, hl2, hl3, hl4, hr,
              hloweq, hl5]
          rw [heq]
          have hpiv : deref l5 low = p := by
            rw [d5 low (by omega) (by omega), if_pos rfl, rp]
          have hsplit : l5 = l5.take low ++ deref l5 low :: l5.drop (low + 1) := by
            rw [deref_eq_getElem l5 low (by omega), ← List.drop_eq_getElem_cons,
              List.take_append_drop]
          have hT : ∀ x ∈ l5.take low, lt p x = false := by
            intro x hx
            obtain ⟨i, hi, rfl⟩ := List.mem_take_iff_getElem.mp hx
            have hi1 : i < low := by omega
            rw [← deref_eq_getElem l5 i (by omega), d5 i (by omega) (by omega),
              if_neg (by omega), if_neg (by omega)]
            exact hL i hi1
          have hD : ∀ y ∈ l5.drop (low + 1), lt y p = false := by
            intro y hy
            obtain ⟨i, hi, rfl⟩ := List.mem_drop_iff_getElem.mp hy
            rw [← deref_eq_getElem l5 (low + 1 + i) (by omega),
              d5 (low + 1 + i) (by omega) (by omega), if_neg (by omega)]
            by_cases hie : low + 1 + i = l.length - 1
            · rw [if_pos hie]; exact hR low (le_refl _) (by omega)
            · rw [if_neg hie]; exact hR _ (by omega) (by omega)
          have ihT := ih (l5.take low)
          have ihD := ih (l5.drop (low + 1))
          constructor
          · have : (qSortHelper lt fuel (l5.take low) ++
                deref l5 low :: qSortHelper lt fuel (l5.drop (low + 1))).Perm l5 := by
              conv_rhs => rw [hsplit]
              exact List.Perm.append ihT.1 (List.Perm.cons _ ihD.1)
            exact this.trans (p5.trans rperm)
          · intro hfuel
            have aT := ihT.2 (by rw [List.length_take]; omega)
            have aD := ihD.2 (by rw [List.length_drop]; omega)
            rw [hpiv]
            unfold Ascending at aT aD ⊢
            rw [List.pairwise_append]
            refine ⟨aT, ?_, ?_⟩
            · rw [List.pairwise_cons]
              exact ⟨fun y hy => hD y (ihD.1.subset hy), aD⟩
            · intro a ha b hb
              have ha1 := hT a (ihT.1.subset ha)
              rcases List.mem_cons.mp hb with hbp | hbD
              · rw [hbp]; exact ha1
              · exact hlt.trans _ _ _ ha1 (hD b (ihD.1.subset hbD))

theorem qSort_perm (lt : α → α → Bool) (hlt : IsRanking lt) (l : List α) :
    (qSort lt l).Perm l := by
  unfold qSort
  split_ifs
  · exact List.Perm.refl _
  · exact (qSortHelper_spec lt hlt l.length l).1

theorem qSort_ascending (lt : α → α → Bool) (hlt : IsRanking lt) (l : List α) :
    Ascending lt (qSort lt l) := by
  unfold qSort
  split_ifs with h
  · have : l = [] := List.length_eq_zero.mp h
    subst this
    simp [Ascending]
  · exact (qSortHelper_spec lt hlt l.length l).2 (le_refl _)

end QSortProofs

/-! ## Set priority ranking -/

theorem functor_isRanking : IsRanking EnabledAndKeyCompareFunctor := by
  constructor
  · intro a b h
    unfold EnabledAndKeyCompareFunctor at h ⊢
    cases ha : a.enabled <;> cases hb : b.enabled <;> simp [ha, hb] at h ⊢ <;> omega
  · intro a b c h1 h2
    unfold EnabledAndKeyCompareFunctor at h1 h2 ⊢
    cases ha : a.enabled <;> cases hb : b.enabled <;> cases hc : c.enabled <;>
      simp [ha, hb, hc] at h1 h2 ⊢ <;> omega

/-- C1: the printing list of a newly created record is a permutation of the
card's printings in which no disabled printing stands before an enabled one and
in which, among printings of the same enabled-state, sort keys never decrease. -/
theorem sortedSets_ranked (card : CardInfo) :
    (PictureToLoad.new (some card)).sortedSets.Perm card.sets ∧
    (PictureToLoad.new (some card)).sortedSets.Pairwise
      (fun a b => ¬ (a.enabled = false ∧ b.enabled = true)) ∧
    (PictureToLoad.new (some card)).sortedSets.Pairwise
      (fun a b => a.enabled = b.enabled → a.sortKey ≤ b.sortKey) := by
  have hperm := qSort_perm EnabledAndKeyCompareFunctor functor_isRanking card.sets
  have hasc := qSort_ascending EnabledAndKeyCompareFunctor functor_isRanking card.sets
  refine ⟨hperm, ?_, ?_⟩
  · refine List.Pairwise.imp ?_ hasc
    intro a b h hab
    unfold EnabledAndKeyCompareFunctor at h
    simp [hab.1, hab.2] at h
  · refine List.Pairwise.imp ?_ hasc
    intro a b h hab
    unfold EnabledAndKeyCompareFunctor at h
    cases hb : b.enabled <;> simp [hab, hb] at h <;> exact h

/-! ## Load queue -/

/-- C2: enqueueing a null card, the card being looked up, the card being
downloaded or a card that is in the load queue changes nothing: the load
queue, both slots and every other member are as before. -/
theorem enqueueImageLoad_noop (s : PictureLoader) (card : Option CardInfo)
    (h : card = none ∨ card = s.cardBeingLoaded.getCard ∨
      card = s.cardBeingDownloaded.getCard ∨ ∃ pic ∈ s.loadQueue, pic.getCard = card) :
    PictureLoader.enqueueImageLoad s card = s := by
  unfold PictureLoader.enqueueImageLoad
  rcases h with h | h | h | ⟨pic, hpic, hcard⟩
  · rw [if_pos (Or.inl h)]
  · rw [if_pos (Or.inr (Or.inl h))]
  · rw [if_pos (Or.inr (Or.inr h))]
  · split_ifs with h1 h2
    · rfl
    · rfl
    · exact absurd (List.any_eq_true.mpr ⟨pic, hpic, by simpa using hcard⟩) h2

theorem enqueueImageLoad_noop_witness :
    (some cardA = none ∨ some cardA = (PictureLoader.enqueueImageLoad
        (PictureLoader.init [] false) (some cardA)).cardBeingLoaded.getCard ∨
      some cardA = (PictureLoader.enqueueImageLoad
        (PictureLoader.init [] false) (some cardA)).cardBeingDownloaded.getCard ∨
      ∃ pic ∈ (PictureLoader.enqueueImageLoad (PictureLoader.init [] false) (some cardA)).loadQueue,
        pic.getCard = some cardA) ∧
    PictureLoader.enqueueImageLoad
        (PictureLoader.enqueueImageLoad (PictureLoader.init [] false) (some cardA)) (some cardA) =
      PictureLoader.enqueueImageLoad (PictureLoader.init [] false) (some cardA) :=
  have h : some cardA = none ∨ some cardA = (PictureLoader.enqueueImageLoad
        (PictureLoader.init [] false) (some cardA)).cardBeingLoaded.getCard ∨
      some cardA = (PictureLoader.enqueueImageLoad
        (PictureLoader.init [] false) (some cardA)).cardBeingDownloaded.getCard ∨
      ∃ pic ∈ (PictureLoader.enqueueImageLoad (PictureLoader.init [] false) (some cardA)).loadQueue,
        pic.getCard = some cardA :=
    Or.inr (Or.inr (Or.inr ⟨PictureToLoad.new (some cardA), by decide, rfl⟩))
  ⟨h, enqueueImageLoad_noop _ _ h⟩

/-! ## The load queue loop -/

open PictureLoader

theorem findPicture_none (env : Env) (files : List (QString × QByteArray)) (ps : List QString)
    (h : ∀ p ∈ ps, env.readFile files p = none ∧ env.readFile files (p ++ ".full".toList) = none) :
    findPicture env files ps = none := by
  induction ps with
  | nil => rfl
  | cons p ps ih =>
    have hp := h p (List.mem_cons_self _ _)
    simp only [findPicture, hp.1, hp.2]
    exact ih (fun q hq => h q (List.mem_cons_of_mem _ hq))

/-- One round of the loop with download disabled, a failed lookup and a next
printing: the record goes back to the front with its index advanced. -/
theorem loadQueueLoop_advance (env : Env) (fuel : Nat) (s : PictureLoader)
    (first : PictureToLoad) (rest : List PictureToLoad)
    (hq : s.loadQueue = first :: rest) (hdl : s.picDownload = false)
    (hfind : findPicture env s.files (picsPaths s.picsPath first.getSetName
      (match first.getCard with | some c => c.correctedName | none => [])) = none)
    (hnext : first.setIndex ≠ (first.sortedSets.length : Int) - 1) :
    loadQueueLoop env (fuel + 1) s =
      loadQueueLoop env fuel
        { s with loadQueue := { first with setIndex := first.setIndex + 1 } :: rest,
                 cardBeingLoaded := PictureToLoad.new none,
                 lookups := s.lookups ++ [(first.getCard, first.setIndex)] } := by
  rw [loadQueueLoop]
  simp only [hq, hdl, hfind, PictureToLoad.nextSet, if_neg hnext]
  simp

/-- One round of the loop with download disabled, a failed lookup and no next
printing: the empty-image completion. -/
theorem loadQueueLoop_bail (env : Env) (fuel : Nat) (s : PictureLoader)
    (first : PictureToLoad) (rest : List PictureToLoad)
    (hq : s.loadQueue = first :: rest) (hdl : s.picDownload = false)
    (hfind : findPicture env s.files (picsPaths s.picsPath first.getSetName
      (match first.getCard with | some c => c.correctedName | none => [])) = none)
    (hlast : first.setIndex = (first.sortedSets.length : Int) - 1) :
    loadQueueLoop env (fuel + 1) s =
      loadQueueLoop env fuel
        { s with loadQueue := rest, cardBeingLoaded := first,
                 lookups := s.lookups ++ [(first.getCard, first.setIndex)],
                 completions := s.completions ++ [(first.getCard, QImage.null)] } := by
  rw [loadQueueLoop]
  simp only [hq, hdl, hfind, PictureToLoad.nextSet, if_pos hlast]
  simp [imageLoaded, QImage.isNull, QImage.null]

theorem loadQueueLoop_idle (env : Env) (fuel : Nat) (s : PictureLoader)
    (hq : s.loadQueue = []) :
    loadQueueLoop env (fuel + 1) s = some { s with loadQueueRunning := false } := by
  rw [loadQueueLoop]
  simp only [hq]

/-- C4 (amended): for a card with exactly three printings, download disabled and
no candidate file decodable, processLoadQueue on a queue holding only the
card's fresh record returns with one lookup per printing (at the indices 0, 1
and 2), the index advanced exactly twice (it ends at 2, the last printing), one
empty-image completion for the card, and the load queue empty. -/
theorem processLoadQueue_three_printings (env : Env) (s : PictureLoader) (card : CardInfo)
    (fuel : Nat) (hfuel : 4 ≤ fuel)
    (h3 : card.sets.length = 3)
    (hq : s.loadQueue = [PictureToLoad.new (some card)])
    (hdl : s.picDownload = false) (hrun : s.loadQueueRunning = false)
    (hnone : ∀ st ∈ card.sets,
      ∀ p ∈ picsPaths s.picsPath st.correctedShortName card.correctedName,
        env.readFile s.files p = none ∧ env.readFile s.files (p ++ ".full".toList) = none) :
    processLoadQueue env fuel s =
      some { s with
        loadQueue := []
        cardBeingLoaded := { PictureToLoad.new (some card) with setIndex := 2 }
        lookups := s.lookups ++ [(some card, 0), (some card, 1), (some card, 2)]
        completions := s.completions ++ [(some card, QImage.null)] } := by
  obtain ⟨f, rfl⟩ : ∃ f, fuel = f + 4 := ⟨fuel - 4, by omega⟩
  have hperm := qSort_perm EnabledAndKeyCompareFunctor functor_isRanking card.sets
  have hlen : (qSort EnabledAndKeyCompareFunctor card.sets).length = 3 := by
    rw [hperm.length_eq, h3]
  have hnew : PictureToLoad.new (some card) =
      { card := some card, sortedSets := qSort EnabledAndKeyCompareFunctor card.sets,
        setIndex := 0 } := rfl
  rw [hnew] at hq ⊢
  generalize qSort EnabledAndKeyCompareFunctor card.sets = ss at hperm hlen hq ⊢
  match ss, hlen with
  | [a, b, c], _ =>
    have ha : a ∈ card.sets := hperm.subset (by simp)
    have hb : b ∈ card.sets := hperm.subset (by simp)
    have hc : c ∈ card.sets := hperm.subset (by simp)
    have fa := findPicture_none env s.files _ (hnone a ha)
    have fb := findPicture_none env s.files _ (hnone b hb)
    have fc := findPicture_none env s.files _ (hnone c hc)
    unfold processLoadQueue
    rw [if_neg (by simp [hrun])]
    refine (loadQueueLoop_advance env (f + 3) _
      { card := some card, sortedSets := [a, b, c], setIndex := 0 } [] ?_ ?_ ?_ ?_).trans ?_
    · exact hq
    · exact hdl
    · simpa [PictureToLoad.getSetName, PictureToLoad.getCard] using fa
    · simp
    refine (loadQueueLoop_advance env (f + 2) _
      { card := some card, sortedSets := [a, b, c], setIndex := 0 + 1 } [] ?_ ?_ ?_ ?_).trans ?_
    · rfl
    · exact hdl
    · simpa [PictureToLoad.getSetName, PictureToLoad.getCard] using fb
    · simp
    refine (loadQueueLoop_bail env (f + 1) _
      { card := some card, sortedSets := [a, b, c], setIndex := 0 + 1 + 1 } [] ?_ ?_ ?_ ?_).trans ?_
    · rfl
    · exact hdl
    · simpa [PictureToLoad.getSetName, PictureToLoad.getCard] using fc
    · simp
    refine (loadQueueLoop_idle env f _ rfl).trans ?_
    simp [PictureToLoad.getCard, hrun]

theorem processLoadQueue_three_printings_witness :
    (4 ≤ 4 ∧ cardThree.sets.length = 3 ∧
      (PictureLoader.enqueueImageLoad (PictureLoader.init "pics".toList false)
        (some cardThree)).loadQueue = [PictureToLoad.new (some cardThree)] ∧
      ∀ st ∈ cardThree.sets,
        ∀ p ∈ PictureLoader.picsPaths "pics".toList st.correctedShortName cardThree.correctedName,
          demoEnv.readFile [] p = none ∧ demoEnv.readFile [] (p ++ ".full".toList) = none) ∧
    PictureLoader.processLoadQueue demoEnv 4
        (PictureLoader.enqueueImageLoad (PictureLoader.init "pics".toList false) (some cardThree)) =
      some { PictureLoader.enqueueImageLoad (PictureLoader.init "pics".toList false)
               (some cardThree) with
        loadQueue := []
        cardBeingLoaded := { PictureToLoad.new (some cardThree) with setIndex := 2 }
        lookups := [(some cardThree, 0), (some cardThree, 1), (some cardThree, 2)]
        completions := [(some cardThree, QImage.null)] } :=
  ⟨by decide,
    processLoadQueue_three_printings demoEnv _ cardThree 4 (by decide) (by decide) (by decide)
      (by decide) (by decide) (by decide)⟩

/-- C4 (as stated): on the example card with three printings the run ends with
the record at index 2: the index was advanced twice, not three times. -/
theorem three_printings_index_not_three :
    ∃ s1, PictureLoader.processLoadQueue demoEnv 4
        (PictureLoader.enqueueImageLoad (PictureLoader.init "pics".toList false)
          (some cardThree)) = some s1 ∧
      s1.cardBeingLoaded.getCard = some cardThree ∧ s1.loadQueue = [] ∧
      s1.cardBeingLoaded.setIndex = 0 + 2 ∧ ¬ s1.cardBeingLoaded.setIndex = 0 + 3 := by
  decide



/-- C3: the run `requeueRun1`, `requeueRun2`, `requeueRun3` uses only calls of
enqueueImageLoad, processLoadQueue and picDownloadFinished from the initial
state, and ends with card B both in the load queue and in the being-downloaded
slot. -/
theorem requeue_duplicates_card :
    Reachable demoEnv requeueRun3 ∧ requeueRun2.cardsToDownload.map PictureToLoad.getCard =
      [some cardB] ∧ occurrences requeueRun3 cardB = 2 := by
  have h1 : PictureLoader.processLoadQueue demoEnv 2
      (PictureLoader.enqueueImageLoad (PictureLoader.init "pics".toList true) (some cardA)) =
      some requeueRun1 := by decide
  have h2 : PictureLoader.processLoadQueue demoEnv 2
      (PictureLoader.enqueueImageLoad requeueRun1 (some cardB)) = some requeueRun2 := by decide
  refine ⟨?_, by decide, by decide⟩
  exact Reachable.step _ _ (Reachable.step _ _ (Reachable.step _ _ (Reachable.step _ _
    (Reachable.step _ _ (Reachable.step _ _ (Reachable.init "pics".toList true)
      (Step.enqueueImageLoad _ (some cardA)))
      (Step.processLoadQueue _ _ 2 h1))
      (Step.enqueueImageLoad _ (some cardB)))
      (Step.processLoadQueue _ _ 2 h2))
      (Step.enqueueImageLoad _ (some cardB)))
      (Step.picDownloadFinished _ (okReply [1]))

/-- C5: with card A being downloaded and a payload that is not blacklisted and
decodes, picDownloadFinished returns early when the directory cannot be created
or the file cannot be opened: the loader is left as it was, no image is
delivered to imageLoaded and the download stays marked as running. -/
theorem picDownloadFinished_write_failure_drops_image :
    (∃ s, afterLookup readOnlyEnv cardA = some s ∧
      s.cardBeingDownloaded.getCard = some cardA ∧ s.downloadRunning = true ∧
      md5Blacklist.contains (readOnlyEnv.md5Hex [1]) = false ∧
      readOnlyEnv.decode [1] = some { rows := [[1]] } ∧
      picDownloadFinished readOnlyEnv s (okReply [1]) = s ∧
      (picDownloadFinished readOnlyEnv s (okReply [1])).completions = []) ∧
    (∃ s, afterLookup noWriteEnv cardA = some s ∧
      s.cardBeingDownloaded.getCard = some cardA ∧ s.downloadRunning = true ∧
      md5Blacklist.contains (noWriteEnv.md5Hex [1]) = false ∧
      noWriteEnv.decode [1] = some { rows := [[1]] } ∧
      picDownloadFinished noWriteEnv s (okReply [1]) = s ∧
      (picDownloadFinished noWriteEnv s (okReply [1])).completions = []) := by
  decide

/-- C6: with a card without printings being downloaded and a blacklisted
payload, picDownloadFinished advances the index to 1 and puts the record back
into the load queue; no empty-image completion is made although no printing
remains. -/
theorem picDownloadFinished_blacklisted_no_printings :
    ∃ s, afterLookup demoEnv cardNoSets = some s ∧
      s.cardBeingDownloaded = PictureToLoad.new (some cardNoSets) ∧
      (PictureToLoad.new (some cardNoSets)).sortedSets = [] ∧
      md5Blacklist.contains (demoEnv.md5Hex [0]) = true ∧
      (picDownloadFinished demoEnv s (okReply [0])).loadQueue =
        [{ PictureToLoad.new (some cardNoSets) with setIndex := 1 }] ∧
      (picDownloadFinished demoEnv s (okReply [0])).completions = [] := by
  decide


/-! ## The remote URL -/

theorem contains_iff (s t : QString) : contains s t = true ↔ t <:+: s := by
  induction s with
  | nil =>
    cases t with
    | nil => simp [contains]
    | cons a t => simp [contains]
  | cons c cs ih =>
    rw [contains, Bool.or_eq_true, ih, List.isPrefixOf_iff_prefix, List.infix_cons_iff]

theorem replaceAll_card_set (env : Env) (card : CardInfo) (st : CardSet) (muid : Int)
    (template : QString) :
    substitute env card (some st) muid template =
      replaceAll (cardPlaceholders env card muid ++ setPlaceholders env st) template := rfl

theorem replaceAll_card (env : Env) (card : CardInfo) (muid : Int) (template : QString) :
    substitute env card none muid template =
      replaceAll (cardPlaceholders env card muid) template := rfl

/-- C7 (amended): a URL that getPicUrl builds from a template in which a
placeholder is left after substitution is given up for the empty string; every
non-empty URL that getPicUrl returns is either the non-empty custom URL of the
current printing, returned as it is, or contains none of the seven tokens. -/
theorem getPicUrl_placeholders (env : Env) (s : PictureLoader) :
    (∀ card, s.cardBeingDownloaded.getCard = some card →
      (∀ st, s.cardBeingDownloaded.getCurrentSet = some st →
        card.getCustomPicURL st.shortName = []) →
      ∀ muid template,
        (muid = match s.cardBeingDownloaded.getCurrentSet with
          | some st => card.getMuId st.shortName
          | none => 0) →
        (template = if muid ≠ 0 then env.picUrl else env.picUrlFallback) →
        (∃ t ∈ placeholders,
          t <:+: substitute env card s.cardBeingDownloaded.getCurrentSet muid template) →
        getPicUrl env s = []) ∧
    (getPicUrl env s = [] ∨
      (∃ card st, s.cardBeingDownloaded.getCard = some card ∧
        s.cardBeingDownloaded.getCurrentSet = some st ∧
        getPicUrl env s = card.getCustomPicURL st.shortName) ∨
      ∀ t ∈ placeholders, ¬ t <:+: getPicUrl env s) := by
  constructor
  · intro card hcard hcustom muid template hmuid htemplate ⟨t, ht, hinf⟩
    subst hmuid htemplate
    unfold getPicUrl
    rw [hcard]
    cases hset : s.cardBeingDownloaded.getCurrentSet with
    | none =>
      rw [hset] at hinf
      have hany : placeholders.any (fun t => contains (substitute env card none 0
          (if (0 : Int) ≠ 0 then env.picUrl else env.picUrlFallback)) t) = true :=
        List.any_eq_true.mpr ⟨t, ht, (contains_iff _ _).mpr hinf⟩
      simp only [Option.isSome_none, Bool.false_eq_true, false_and, if_false, hany, if_true]
      split_ifs <;> rfl
    | some st =>
      rw [hset] at hinf
      have hc := hcustom st hset
      have hany : placeholders.any (fun t => contains (substitute env card (some st)
          (card.getMuId st.shortName)
          (if card.getMuId st.shortName ≠ 0 then env.picUrl else env.picUrlFallback)) t) = true :=
        List.any_eq_true.mpr ⟨t, ht, (contains_iff _ _).mpr hinf⟩
      simp only [hc, ne_eq, not_true_eq_false, and_false, if_false, hany, if_true]
      split_ifs <;> rfl
  · unfold getPicUrl
    split_ifs with h1
    · exact Or.inl rfl
    · cases hcard : s.cardBeingDownloaded.getCard with
      | none => exact Or.inl rfl
      | some card =>
        simp only
        generalize substitute env card _ _ _ = u
        split_ifs with h2 h3
        · right; left
          cases hset : s.cardBeingDownloaded.getCurrentSet with
          | none => rw [hset] at h2; simp at h2
          | some st => exact ⟨card, st, rfl, rfl, rfl⟩
        · exact Or.inl rfl
        · right; right
          intro t ht hinf
          exact h3 (List.any_eq_true.mpr ⟨t, ht, (contains_iff _ _).mpr hinf⟩)

theorem getPicUrl_unresolved_example :
    getPicUrl { demoEnv with picUrlFallback := "http://pics/!setcode!/!name!".toList }
      { PictureLoader.init "pics".toList true with
        cardBeingDownloaded := PictureToLoad.new (some cardNoSets) } = [] := by
  decide

/-- C7 (as stated): with the example card whose custom URL holds a token being
downloaded, getPicUrl returns a non-empty URL that contains "!name!". -/
theorem getPicUrl_custom_keeps_placeholder :
    ∃ s, afterLookup demoEnv cardCustom = some s ∧
      s.cardBeingDownloaded.getCard = some cardCustom ∧
      getPicUrl demoEnv s = "http://x/!name!".toList ∧
      getPicUrl demoEnv s ≠ [] ∧
      "!name!".toList ∈ placeholders ∧ contains (getPicUrl demoEnv s) "!name!".toList = true := by
  decide


theorem replace_example :
    replace "a/!name!/!name_lower!/!name!".toList "!name!".toList "XY".toList =
      "a/XY/!name_lower!/XY".toList := by
  decide

/-- C8: with download enabled, getPicUrl returns the non-empty custom URL of
the current printing unchanged; otherwise it takes the primary template when
the numeric id of the card for the current printing is not zero and the
fallback template when it is zero or there is no current printing, replaces the
tokens of the card (name, lowercased name, numeric id) and, with a current
printing, those of the printing (short code, lowercased short code, long name,
lowercased long name) by the percent-encoded values, and returns the result if
no token is left in it. -/
theorem getPicUrl_spec (env : Env) (s : PictureLoader) (card : CardInfo)
    (hdl : s.picDownload = true) (hcard : s.cardBeingDownloaded.getCard = some card) :
    (∀ st, s.cardBeingDownloaded.getCurrentSet = some st →
      card.getCustomPicURL st.shortName ≠ [] →
      getPicUrl env s = card.getCustomPicURL st.shortName) ∧
    (∀ st, s.cardBeingDownloaded.getCurrentSet = some st →
      card.getCustomPicURL st.shortName = [] → card.getMuId st.shortName ≠ 0 →
      getPicUrl env s = usable (replaceAll
        (cardPlaceholders env card (card.getMuId st.shortName) ++ setPlaceholders env st)
        env.picUrl)) ∧
    (∀ st, s.cardBeingDownloaded.getCurrentSet = some st →
      card.getCustomPicURL st.shortName = [] → card.getMuId st.shortName = 0 →
      getPicUrl env s = usable (replaceAll
        (cardPlaceholders env card 0 ++ setPlaceholders env st) env.picUrlFallback)) ∧
    (s.cardBeingDownloaded.getCurrentSet = none →
      getPicUrl env s = usable (replaceAll (cardPlaceholders env card 0) env.picUrlFallback)) := by
  refine ⟨?_, ?_, ?_, ?_⟩
  · intro st hset hcustom
    simp [getPicUrl, hdl, hcard, hset, hcustom]
  · intro st hset hcustom hmuid
    simp [getPicUrl, hdl, hcard, hset, hcustom, hmuid, usable, replaceAll_card_set]
  · intro st hset hcustom hmuid
    simp [getPicUrl, hdl, hcard, hset, hcustom, hmuid, usable, replaceAll_card_set]
  · intro hset
    simp [getPicUrl, hdl, hcard, hset, usable, replaceAll_card]

theorem getPicUrl_spec_witness :
    ((downloading demoEnv cardMuid).picDownload = true ∧
      (downloading demoEnv cardMuid).cardBeingDownloaded.getCard = some cardMuid ∧
      (downloading demoEnv cardMuid).cardBeingDownloaded.getCurrentSet =
        some (demoSet "S1" 0 true) ∧
      getPicUrl demoEnv (downloading demoEnv cardMuid) = "http://pics/7".toList) ∧
    ((∀ st, (downloading demoEnv cardMuid).cardBeingDownloaded.getCurrentSet = some st →
      cardMuid.getCustomPicURL st.shortName ≠ [] →
      getPicUrl demoEnv (downloading demoEnv cardMuid) = cardMuid.getCustomPicURL st.shortName) ∧
    (∀ st, (downloading demoEnv cardMuid).cardBeingDownloaded.getCurrentSet = some st →
      cardMuid.getCustomPicURL st.shortName = [] → cardMuid.getMuId st.shortName ≠ 0 →
      getPicUrl demoEnv (downloading demoEnv cardMuid) = usable (replaceAll
        (cardPlaceholders demoEnv cardMuid (cardMuid.getMuId st.shortName) ++
          setPlaceholders demoEnv st)
        demoEnv.picUrl)) ∧
    (∀ st, (downloading demoEnv cardMuid).cardBeingDownloaded.getCurrentSet = some st →
      cardMuid.getCustomPicURL st.shortName = [] → cardMuid.getMuId st.shortName = 0 →
      getPicUrl demoEnv (downloading demoEnv cardMuid) = usable (replaceAll
        (cardPlaceholders demoEnv cardMuid 0 ++ setPlaceholders demoEnv st)
        demoEnv.picUrlFallback)) ∧
    ((downloading demoEnv cardMuid).cardBeingDownloaded.getCurrentSet = none →
      getPicUrl demoEnv (downloading demoEnv cardMuid) =
        usable (replaceAll (cardPlaceholders demoEnv cardMuid 0) demoEnv.picUrlFallback))) :=
  ⟨by decide, getPicUrl_spec demoEnv (downloading demoEnv cardMuid) cardMuid (by decide)
    (by decide)⟩

/-! ## Rendition cache -/

/-- C9: the sizes 1 x 23 and 12 x 3 give the same size-qualified key, and
getPixmap for 12 x 3 hands back the rendition that was scaled for 1 x 23. -/
theorem sizekey_collision :
    (∀ key, sizekey key { width := 1, height := 23 } = sizekey key { width := 12, height := 3 }) ∧
    (getPixmap demoEnv (getPixmap demoEnv cachedA (some cardA) { width := 1, height := 23 }).2
        (some cardA) { width := 12, height := 3 }).1 =
      demoEnv.scaled { rows := [[1, 2], [3, 4]] } { width := 1, height := 23 } ∧
    demoEnv.scaled { rows := [[1, 2], [3, 4]] } { width := 1, height := 23 } ≠
      demoEnv.scaled { rows := [[1, 2], [3, 4]] } { width := 12, height := 3 } := by
  refine ⟨fun key => ?_, by decide, by decide⟩
  have : number 1 ++ number 23 = number 12 ++ number 3 := by decide
  simp only [sizekey, List.append_assoc, this]

theorem cacheFind_cacheRemove_self (cache : PixmapCache) (key : QString) :
    cacheFind (cacheRemove cache key) key = none := by
  induction cache with
  | nil => rfl
  | cons e cache ih =>
    obtain ⟨k, v⟩ := e
    unfold cacheFind cacheRemove at ih ⊢
    by_cases h : k = key
    · rw [List.filter_cons_of_neg (by simp [h])]
      exact ih
    · have h2 : (key == k) = false := by simpa using fun h3 => h h3.symm
      rw [List.filter_cons_of_pos (by simpa using h), List.lookup_cons]
      simp only [h2]
      exact ih

theorem cacheFind_cacheRemove_other (cache : PixmapCache) (key other : QString)
    (h : other ≠ key) : cacheFind (cacheRemove cache key) other = cacheFind cache other := by
  induction cache with
  | nil => rfl
  | cons e cache ih =>
    obtain ⟨k, v⟩ := e
    unfold cacheFind cacheRemove at ih ⊢
    by_cases hk : k = key
    · have h2 : (other == k) = false := by simpa [hk] using h
      rw [List.filter_cons_of_neg (by simp [hk]), List.lookup_cons]
      simp only [h2]
      exact ih
    · rw [List.filter_cons_of_pos (by simpa using hk), List.lookup_cons, List.lookup_cons]
      cases h3 : other == k
      · simp only []
        exact ih
      · rfl

theorem sizekey_ne_key (key : QString) (size : QSize) : sizekey key size ≠ key := by
  intro h
  have := congrArg List.length h
  simp [sizekey] at this

/-- C10 (amended): after clearPixmapCache(card) for a non-null card the cache
holds no full-resolution entry under the cache key of the card, the entry of
every other key (a size-qualified entry that getPixmap stored for the card
included) is as before, nothing else changes, and the next getPixmap(card,
size) is a full miss (the card-back rendition, and the card enqueued) when no
size-qualified entry for that size is cached. -/
theorem clearPixmapCache_spec (s : PictureLoader) (card : CardInfo) :
    cacheFind (clearPixmapCache s (some card)).pixmapCache card.pixmapCacheKey = none ∧
    (∀ key, key ≠ card.pixmapCacheKey →
      cacheFind (clearPixmapCache s (some card)).pixmapCache key = cacheFind s.pixmapCache key) ∧
    clearPixmapCache s (some card) =
      { s with pixmapCache := (clearPixmapCache s (some card)).pixmapCache } ∧
    (∀ env size, cacheFind s.pixmapCache (sizekey card.pixmapCacheKey size) = none →
      getPixmap env (clearPixmapCache s (some card)) (some card) size =
        ((getPixmap env (clearPixmapCache s (some card)) none size).1,
          enqueueImageLoad (getPixmap env (clearPixmapCache s (some card)) none size).2
            (some card))) := by
  refine ⟨cacheFind_cacheRemove_self _ _, fun key h => cacheFind_cacheRemove_other _ _ _ h,
    rfl, ?_⟩
  intro env size hsize
  have h1 : cacheFind (clearPixmapCache s (some card)).pixmapCache
      (sizekey card.pixmapCacheKey size) = none := by
    rw [← hsize]
    exact cacheFind_cacheRemove_other _ _ _ (sizekey_ne_key _ _)
  have h2 : cacheFind (clearPixmapCache s (some card)).pixmapCache card.pixmapCacheKey = none :=
    cacheFind_cacheRemove_self _ _
  simp only [getPixmap, h1, h2]

/-- C10 (as stated): after getPixmap stored a rendition of card A for the size
2 x 3, clearPixmapCache(A) leaves that size-qualified entry in the cache, and
the next getPixmap(A, 2 x 3) returns it without enqueueing the card. -/
theorem clearPixmapCache_keeps_sized_entry :
    cacheFind (clearPixmapCache (getPixmap demoEnv cachedA (some cardA)
        { width := 2, height := 3 }).2 (some cardA)).pixmapCache
        (sizekey cardA.pixmapCacheKey { width := 2, height := 3 }) =
      some (demoEnv.scaled { rows := [[1, 2], [3, 4]] } { width := 2, height := 3 }) ∧
    getPixmap demoEnv (clearPixmapCache (getPixmap demoEnv cachedA (some cardA)
        { width := 2, height := 3 }).2 (some cardA)) (some cardA) { width := 2, height := 3 } =
      (demoEnv.scaled { rows := [[1, 2], [3, 4]] } { width := 2, height := 3 },
        clearPixmapCache (getPixmap demoEnv cachedA (some cardA)
          { width := 2, height := 3 }).2 (some cardA)) ∧
    (clearPixmapCache (getPixmap demoEnv cachedA (some cardA)
        { width := 2, height := 3 }).2 (some cardA)).loadQueue = [] := by
  decide


/-! ## Download manager -/

/-- C17: for a reply with status 301 or 302, picDownloadFinished passes the
redirection target to one new GET and changes nothing else: the record being
downloaded and its index, the records waiting for download, the load queue,
the cache, the files and every flag are as before, and nothing that
picDownloadFailed or startNextPicDownload does has happened. -/
theorem picDownloadFinished_redirect (env : Env) (s : PictureLoader) (reply : QNetworkReply)
    (h : reply.statusCode = 301 ∨ reply.statusCode = 302) :
    picDownloadFinished env s reply =
      { s with requests := s.requests ++ [reply.redirectionTarget] } := by
  unfold picDownloadFinished
  rw [if_pos h]

theorem picDownloadFinished_redirect_witness :
    ((302 : Int) = 301 ∨ (302 : Int) = 302) ∧
    picDownloadFinished demoEnv (downloading demoEnv cardA)
        { statusCode := 302, redirectionTarget := "http://other/A".toList, data := [] } =
      { downloading demoEnv cardA with
        requests := (downloading demoEnv cardA).requests ++ ["http://other/A".toList] } :=
  ⟨by decide, picDownloadFinished_redirect demoEnv _ _ (by decide)⟩

/-! ## Completion -/

theorem cacheFind_cacheInsert_self (cache : PixmapCache) (key : QString) (pixmap : QPixmap) :
    cacheFind (cacheInsert cache key pixmap) key = some pixmap := by
  simp [cacheFind, cacheInsert, List.lookup]

theorem cacheFind_cacheInsert_other (cache : PixmapCache) (key other : QString)
    (pixmap : QPixmap) (h : other ≠ key) :
    cacheFind (cacheInsert cache key pixmap) other = cacheFind cache other := by
  have h2 : (other == key) = false := by simpa using h
  have := cacheFind_cacheRemove_other cache key other h
  unfold cacheFind at this ⊢
  unfold cacheInsert
  rw [List.lookup_cons]
  simp only [h2]
  exact this

/-- C12: for a card and a non-empty image, imageLoaded puts one entry into the
pixmap cache, under the full-resolution key of the card: the image mirrored
horizontally and vertically (rows in reverse order, each row reversed) when the
upside-down-art flag of the card is set, the image itself otherwise; the entry
of every other key is as before; the card is notified once; nothing else
changes but the record of the call. -/
theorem imageLoaded_stores (s : PictureLoader) (card : CardInfo) (image : QImage)
    (h : image.isNull = false) :
    imageLoaded s (some card) image =
      { s with
        pixmapCache := cacheInsert s.pixmapCache card.pixmapCacheKey
          (if card.upsideDownArt then
            { rows := (image.rows.reverse).map List.reverse }
           else image)
        pixmapUpdated := s.pixmapUpdated ++ [card]
        completions := s.completions ++ [(some card, image)] } ∧
    cacheFind (imageLoaded s (some card) image).pixmapCache card.pixmapCacheKey =
      some (if card.upsideDownArt then
        { rows := (image.rows.reverse).map List.reverse } else image) ∧
    (∀ key, key ≠ card.pixmapCacheKey →
      cacheFind (imageLoaded s (some card) image).pixmapCache key =
        cacheFind s.pixmapCache key) ∧
    ((imageLoaded s (some card) image).pixmapCache.filter
      (fun e => e.1 = card.pixmapCacheKey)).length = 1 := by
  have heq : imageLoaded s (some card) image =
      { s with
        pixmapCache := cacheInsert s.pixmapCache card.pixmapCacheKey
          (if card.upsideDownArt then
            { rows := (image.rows.reverse).map List.reverse }
           else image)
        pixmapUpdated := s.pixmapUpdated ++ [card]
        completions := s.completions ++ [(some card, image)] } := by
    unfold imageLoaded
    simp only [h, Bool.false_eq_true, if_false]
    cases hu : card.upsideDownArt <;> simp [QImage.mirrored]
  refine ⟨heq, ?_, ?_, ?_⟩
  · rw [heq]; exact cacheFind_cacheInsert_self _ _ _
  · intro key hkey
    rw [heq]; exact cacheFind_cacheInsert_other _ _ _ _ hkey
  · rw [heq]
    simp only [cacheInsert, cacheRemove]
    rw [List.filter_cons_of_pos (by simp)]
    simp [List.filter_filter]

theorem imageLoaded_stores_witness :
    (({ rows := [[1, 2], [3, 4]] } : QImage).isNull = false) ∧
    (imageLoaded (PictureLoader.init [] false) (some cardA) { rows := [[1, 2], [3, 4]] } =
      { PictureLoader.init [] false with
        pixmapCache := cacheInsert [] cardA.pixmapCacheKey
          (if cardA.upsideDownArt then
            { rows := (([[1, 2], [3, 4]] : List (List Nat)).reverse).map List.reverse }
           else { rows := [[1, 2], [3, 4]] })
        pixmapUpdated := [cardA]
        completions := [(some cardA, { rows := [[1, 2], [3, 4]] })] }) :=
  ⟨by decide, (imageLoaded_stores (PictureLoader.init [] false) cardA
    { rows := [[1, 2], [3, 4]] } (by decide)).1⟩

/-- Two requests in a row when nothing is stored yet under the size-qualified
key: with the full-resolution pixmap of the card cached, the first getPixmap
returns the full-resolution pixmap scaled to the size and stores it under the
size-qualified key, changing nothing else; the second getPixmap returns that
stored pixmap and leaves the loader as it is (nothing enqueued), whatever the
scaling routine is: it does not scale. -/
theorem getPixmap_twice (env : Env) (s : PictureLoader) (card : CardInfo) (size : QSize)
    (bigPixmap : QPixmap)
    (hbig : cacheFind s.pixmapCache card.pixmapCacheKey = some bigPixmap)
    (hfirst : cacheFind s.pixmapCache (sizekey card.pixmapCacheKey size) = none) :
    getPixmap env s (some card) size =
      (env.scaled bigPixmap size,
        { s with pixmapCache := cacheInsert s.pixmapCache (sizekey card.pixmapCacheKey size)
                   (env.scaled bigPixmap size) }) ∧
    cacheFind (getPixmap env s (some card) size).2.pixmapCache
        (sizekey card.pixmapCacheKey size) = some (env.scaled bigPixmap size) ∧
    ∀ env2 : Env,
      getPixmap env2 (getPixmap env s (some card) size).2 (some card) size =
        (env.scaled bigPixmap size, (getPixmap env s (some card) size).2) := by
  have h1 : getPixmap env s (some card) size =
      (env.scaled bigPixmap size,
        { s with pixmapCache := cacheInsert s.pixmapCache (sizekey card.pixmapCacheKey size)
                   (env.scaled bigPixmap size) }) := by
    simp only [getPixmap, hfirst, hbig]
  have h2 : cacheFind (getPixmap env s (some card) size).2.pixmapCache
      (sizekey card.pixmapCacheKey size) = some (env.scaled bigPixmap size) := by
    rw [h1]; exact cacheFind_cacheInsert_self _ _ _
  refine ⟨h1, h2, fun env2 => ?_⟩
  generalize getPixmap env s (some card) size = r at h2
  simp only [getPixmap, h2]

theorem getPixmap_twice_witness :
    (cacheFind cachedA.pixmapCache cardA.pixmapCacheKey = some { rows := [[1, 2], [3, 4]] } ∧
      cacheFind cachedA.pixmapCache
        (sizekey cardA.pixmapCacheKey { width := 2, height := 3 }) = none) ∧
    (getPixmap demoEnv cachedA (some cardA) { width := 2, height := 3 } =
      (demoEnv.scaled { rows := [[1, 2], [3, 4]] } { width := 2, height := 3 },
        { cachedA with
          pixmapCache := cacheInsert cachedA.pixmapCache
            (sizekey cardA.pixmapCacheKey { width := 2, height := 3 })
            (demoEnv.scaled { rows := [[1, 2], [3, 4]] } { width := 2, height := 3 }) }) ∧
    cacheFind (getPixmap demoEnv cachedA (some cardA) { width := 2, height := 3 }).2.pixmapCache
        (sizekey cardA.pixmapCacheKey { width := 2, height := 3 }) =
      some (demoEnv.scaled { rows := [[1, 2], [3, 4]] } { width := 2, height := 3 }) ∧
    ∀ env2 : Env,
      getPixmap env2 (getPixmap demoEnv cachedA (some cardA) { width := 2, height := 3 }).2
          (some cardA) { width := 2, height := 3 } =
        (demoEnv.scaled { rows := [[1, 2], [3, 4]] } { width := 2, height := 3 },
          (getPixmap demoEnv cachedA (some cardA) { width := 2, height := 3 }).2)) :=
  ⟨by decide, getPixmap_twice demoEnv cachedA cardA { width := 2, height := 3 }
    { rows := [[1, 2], [3, 4]] } (by decide) (by decide)⟩

/-- C11: with the full-resolution pixmap of card A cached and a rendition stored
for the size 1 x 23, the first getPixmap for the size 12 x 3 finds that entry
under its own size-qualified key: whatever the scaling routine is, it returns
the rendition made for 1 x 23, which is not the pixmap scaled to 12 x 3, and it
stores nothing. -/
theorem first_request_served_from_other_size :
    cacheFind (getPixmap demoEnv cachedA (some cardA) { width := 1, height := 23 }).2.pixmapCache
        cardA.pixmapCacheKey = some { rows := [[1, 2], [3, 4]] } ∧
    (∀ env2 : Env,
      getPixmap env2 (getPixmap demoEnv cachedA (some cardA) { width := 1, height := 23 }).2
          (some cardA) { width := 12, height := 3 } =
        (demoEnv.scaled { rows := [[1, 2], [3, 4]] } { width := 1, height := 23 },
          (getPixmap demoEnv cachedA (some cardA) { width := 1, height := 23 }).2)) ∧
    demoEnv.scaled { rows := [[1, 2], [3, 4]] } { width := 1, height := 23 } ≠
      demoEnv.scaled { rows := [[1, 2], [3, 4]] } { width := 12, height := 3 } := by
  have hkey : cacheFind
      (getPixmap demoEnv cachedA (some cardA) { width := 1, height := 23 }).2.pixmapCache
      (sizekey cardA.pixmapCacheKey { width := 12, height := 3 }) =
      some (demoEnv.scaled { rows := [[1, 2], [3, 4]] } { width := 1, height := 23 }) := by
    decide
  refine ⟨by decide, fun env2 => ?_, by decide⟩
  generalize (getPixmap demoEnv cachedA (some cardA) { width := 1, height := 23 }).2 = s1 at hkey
  simp only [getPixmap, hkey]

/-! ## Bulk prefetch -/

theorem enqueueImageLoad_pixmapCache (s : PictureLoader) (card : Option CardInfo) :
    (enqueueImageLoad s card).pixmapCache = s.pixmapCache := by
  unfold enqueueImageLoad
  split_ifs <;> rfl

theorem enqueueImageLoad_length_le (s : PictureLoader) (card : Option CardInfo) :
    (enqueueImageLoad s card).loadQueue.length ≤ s.loadQueue.length + 1 := by
  unfold enqueueImageLoad
  split_ifs <;> simp

theorem cacheCardPixmapsLoop_eq (cards : List (Option CardInfo)) :
    ∀ s s0 : PictureLoader, s.pixmapCache = s0.pixmapCache →
      cacheCardPixmapsLoop s cards =
        (cards.filter (fun entry =>
          match entry with
          | none => false
          | some card => (cacheFind s0.pixmapCache card.pixmapCacheKey).isNone)).foldl
          enqueueImageLoad s := by
  induction cards with
  | nil => intro s s0 _; rfl
  | cons entry rest ih =>
    intro s s0 hc
    cases entry with
    | none =>
      rw [cacheCardPixmapsLoop, List.filter_cons_of_neg (by simp)]
      exact ih s s0 hc
    | some card =>
      rw [cacheCardPixmapsLoop]
      cases hf : cacheFind s0.pixmapCache card.pixmapCacheKey with
      | some pm =>
        rw [hc, hf, List.filter_cons_of_neg (by simp [hf])]
        simpa using ih s s0 hc
      | none =>
        rw [hc, hf, List.filter_cons_of_pos (by simp [hf])]
        simp only [Option.isSome_none, Bool.false_eq_true, if_false, List.foldl_cons]
        exact ih _ s0 (by rw [enqueueImageLoad_pixmapCache, hc])

theorem foldl_enqueue_length (cards : List (Option CardInfo)) :
    ∀ s : PictureLoader,
      (cards.foldl enqueueImageLoad s).loadQueue.length ≤ s.loadQueue.length + cards.length := by
  induction cards with
  | nil => intro s; simp
  | cons entry rest ih =>
    intro s
    have h1 := ih (enqueueImageLoad s entry)
    have h2 := enqueueImageLoad_length_le s entry
    simp only [List.foldl_cons, List.length_cons]
    omega

/-- C19: cacheCardPixmaps looks at the first min(length, 300) entries only: it
is the run of enqueueImageLoad over those of the first 300 entries that are not
null and have no full-resolution pixmap cached, in their order; these are at
most 300, the load queue grows by at most 300 records, and the entries from
position 300 on have no effect. -/
theorem cacheCardPixmaps_spec (s : PictureLoader) (cards : List (Option CardInfo)) :
    cacheCardPixmaps s cards = (prefetchCandidates s cards).foldl enqueueImageLoad s ∧
    (prefetchCandidates s cards).length ≤ 300 ∧
    (∀ entry ∈ prefetchCandidates s cards,
      entry ∈ cards.take 300 ∧
      ∃ card, entry = some card ∧ cacheFind s.pixmapCache card.pixmapCacheKey = none) ∧
    (cacheCardPixmaps s cards).loadQueue.length ≤ s.loadQueue.length + 300 ∧
    cacheCardPixmaps s cards = cacheCardPixmaps s (cards.take 300) := by
  have htake : ∀ l : List (Option CardInfo), l.take (min l.length 300) = l.take 300 := by
    intro l
    rcases Nat.le_total l.length 300 with h | h
    · rw [Nat.min_eq_left h, List.take_of_length_le (le_refl _), List.take_of_length_le h]
    · rw [Nat.min_eq_right h]
  have heq : cacheCardPixmaps s cards = (prefetchCandidates s cards).foldl enqueueImageLoad s := by
    unfold cacheCardPixmaps prefetchCandidates
    show cacheCardPixmapsLoop s (cards.take (min cards.length 300)) = _
    rw [htake cards]
    exact cacheCardPixmapsLoop_eq _ s s rfl
  have hlen : (prefetchCandidates s cards).length ≤ 300 := by
    unfold prefetchCandidates
    exact (List.length_filter_le _ _).trans (by simp)
  refine ⟨heq, hlen, ?_, ?_, ?_⟩
  · intro entry hentry
    unfold prefetchCandidates at hentry
    rw [List.mem_filter] at hentry
    refine ⟨hentry.1, ?_⟩
    cases entry with
    | none => simp at hentry
    | some card => exact ⟨card, rfl, by simpa using hentry.2⟩
  · rw [heq]
    have := foldl_enqueue_length (prefetchCandidates s cards) s
    omega
  · show cacheCardPixmapsLoop s (cards.take (min cards.length 300)) =
      cacheCardPixmapsLoop s ((cards.take 300).take (min (cards.take 300).length 300))
    rw [htake cards, htake (cards.take 300), List.take_take, min_self]


theorem cacheCardPixmaps_spec_witness :
    cacheCardPixmaps (PictureLoader.init [] false) (List.replicate 300 none ++ [some cardA]) =
      PictureLoader.init [] false ∧
    cacheCardPixmaps (PictureLoader.init [] false) (List.replicate 299 none ++ [some cardA]) =
      enqueueImageLoad (PictureLoader.init [] false) (some cardA) := by
  have hnone : ∀ (p : Option CardInfo → Bool), p none = false → ∀ n : Nat,
      (List.replicate n (none : Option CardInfo)).filter p = [] := by
    intro p hp n
    rw [List.filter_eq_nil_iff]
    intro a ha
    rw [List.eq_of_mem_replicate ha, hp]
    exact Bool.false_ne_true
  constructor
  · rw [(cacheCardPixmaps_spec _ _).1]
    unfold prefetchCandidates
    rw [List.take_append_of_le_length (by rw [List.length_replicate]),
      List.take_of_length_le (by rw [List.length_replicate]), hnone _ rfl]
    rfl
  · rw [(cacheCardPixmaps_spec _ _).1]
    unfold prefetchCandidates
    rw [List.take_of_length_le (by
      rw [List.length_append, List.length_replicate, List.length_singleton]),
      List.filter_append, hnone _ rfl]
    rfl

/-! ## Persisting a download -/

theorem imageLoaded_files (s : PictureLoader) (card : Option CardInfo) (image : QImage) :
    (imageLoaded s card image).files = s.files := by
  unfold imageLoaded
  cases card with
  | none => simp only []; split_ifs <;> rfl
  | some c => simp only []; split_ifs <;> rfl

theorem picDownloadFailed_files (s : PictureLoader) : (picDownloadFailed s).files = s.files := by
  unfold picDownloadFailed
  simp only []
  split_ifs
  · rfl
  · rw [imageLoaded_files]

theorem startNextPicDownload_files (env : Env) (s : PictureLoader) :
    (startNextPicDownload env s).files = s.files := by
  unfold startNextPicDownload
  cases s.cardsToDownload with
  | nil => rfl
  | cons first rest =>
    simp only []
    split_ifs
    · rw [picDownloadFailed_files]
    · rfl

/-- C18: for a reply that is no redirect, whose payload is not blacklisted and
decodes, and a record being downloaded whose set name is not empty, when the
directory and the file can be created, picDownloadFinished writes the payload
to `<picsPath>/downloadedPics/<set name>/<card name><ext>`, where `<ext>` is
"." followed by the format name, with ".jpeg" replaced by ".jpg"; that file
then holds exactly the payload, and its name is the third candidate of the
local lookup for that printing followed by `<ext>`. -/
theorem picDownloadFinished_persists (env : Env) (s : PictureLoader) (reply : QNetworkReply)
    (card : CardInfo) (image : QImage)
    (hstatus : ¬ (reply.statusCode = 301 ∨ reply.statusCode = 302))
    (hblack : md5Blacklist.contains (env.md5Hex reply.data) = false)
    (hdecode : env.decode reply.data = some image)
    (hcard : s.cardBeingDownloaded.getCard = some card)
    (hset : s.cardBeingDownloaded.getSetName ≠ [])
    (hmkpath : env.mkpath
      (s.picsPath ++ "/downloadedPics/".toList ++ s.cardBeingDownloaded.getSetName) = true)
    (hopen : env.openWrite
      (s.picsPath ++ "/downloadedPics/".toList ++ s.cardBeingDownloaded.getSetName ++
        "/".toList ++ card.correctedName ++
        (if ".".toList ++ env.imageFormat reply.data = ".jpeg".toList then ".jpg".toList
         else ".".toList ++ env.imageFormat reply.data)) = true) :
    (picDownloadFinished env s reply).files =
      writeFile s.files
        (s.picsPath ++ "/downloadedPics/".toList ++ s.cardBeingDownloaded.getSetName ++
          "/".toList ++ card.correctedName ++
          (if ".".toList ++ env.imageFormat reply.data = ".jpeg".toList then ".jpg".toList
           else ".".toList ++ env.imageFormat reply.data))
        reply.data ∧
    (picDownloadFinished env s reply).files.lookup
        (s.picsPath ++ "/downloadedPics/".toList ++ s.cardBeingDownloaded.getSetName ++
          "/".toList ++ card.correctedName ++
          (if ".".toList ++ env.imageFormat reply.data = ".jpeg".toList then ".jpg".toList
           else ".".toList ++ env.imageFormat reply.data)) = some reply.data ∧
    (picsPaths s.picsPath s.cardBeingDownloaded.getSetName card.correctedName)[2]? =
      some (s.picsPath ++ "/downloadedPics/".toList ++ s.cardBeingDownloaded.getSetName ++
        "/".toList ++ card.correctedName) := by
  have hempty : s.cardBeingDownloaded.getSetName.isEmpty = false := by
    cases h : s.cardBeingDownloaded.getSetName with
    | nil => exact absurd h hset
    | cons c cs => rfl
  have hfiles : (picDownloadFinished env s reply).files =
      writeFile s.files
        (s.picsPath ++ "/downloadedPics/".toList ++ s.cardBeingDownloaded.getSetName ++
          "/".toList ++ card.correctedName ++
          (if ".".toList ++ env.imageFormat reply.data = ".jpeg".toList then ".jpg".toList
           else ".".toList ++ env.imageFormat reply.data))
        reply.data := by
    unfold picDownloadFinished
    simp only [if_neg hstatus, hblack, hdecode, hcard, hempty, hmkpath, hopen,
      Bool.false_eq_true, if_false, Bool.not_true]
    rw [startNextPicDownload_files, imageLoaded_files]
  refine ⟨hfiles, ?_, ?_⟩
  · rw [hfiles]
    simp [writeFile, List.lookup]
  · simp [picsPaths, hempty]

theorem picDownloadFinished_persists_witness :
    (¬ ((okReply [1]).statusCode = 301 ∨ (okReply [1]).statusCode = 302) ∧
      md5Blacklist.contains (demoEnv.md5Hex (okReply [1]).data) = false ∧
      demoEnv.decode (okReply [1]).data = some { rows := [[1]] } ∧
      (downloading demoEnv cardA).cardBeingDownloaded.getCard = some cardA ∧
      (downloading demoEnv cardA).cardBeingDownloaded.getSetName = "S1".toList) ∧
    ((picDownloadFinished demoEnv (downloading demoEnv cardA) (okReply [1])).files =
      writeFile [] "pics/downloadedPics/S1/A.jpg".toList [1] ∧
    (picDownloadFinished demoEnv (downloading demoEnv cardA) (okReply [1])).files.lookup
        "pics/downloadedPics/S1/A.jpg".toList = some [1] ∧
    (picsPaths "pics".toList "S1".toList "A".toList)[2]? =
      some "pics/downloadedPics/S1/A".toList) :=
  ⟨by decide, picDownloadFinished_persists demoEnv (downloading demoEnv cardA) (okReply [1])
    cardA { rows := [[1]] } (by decide) (by decide) (by decide) (by decide) (by decide)
    (by decide) (by decide)⟩

/-! ## The slot after a record has ended -/

/-- C16: after processLoadQueue has found the picture of card A on disk and
returned idle, and likewise after it has ended the card with three printings
by the empty-image completion, the card is still the card of the
being-looked-up slot, and enqueueImageLoad of the same card is refused: the
load queue stays empty. -/
theorem processed_card_stays_in_slot :
    (processLoadQueue demoEnv 2 withPictureA = some foundA ∧
      foundA.completions = [(some cardA, { rows := [[1]] })] ∧
      foundA.loadQueueRunning = false ∧ foundA.loadQueue = [] ∧
      foundA.cardBeingLoaded.getCard = some cardA ∧
      enqueueImageLoad foundA (some cardA) = foundA ∧
      (enqueueImageLoad foundA (some cardA)).loadQueue = []) ∧
    (processLoadQueue demoEnv 4
        (enqueueImageLoad (PictureLoader.init "pics".toList false) (some cardThree)) =
        some notFoundThree ∧
      notFoundThree.completions = [(some cardThree, QImage.null)] ∧
      notFoundThree.loadQueueRunning = false ∧ notFoundThree.loadQueue = [] ∧
      notFoundThree.cardBeingLoaded.getCard = some cardThree ∧
      enqueueImageLoad notFoundThree (some cardThree) = notFoundThree ∧
      (enqueueImageLoad notFoundThree (some cardThree)).loadQueue = []) := by
  decide

/-! ## A card without printings never ends -/

theorem loadQueueLoop_no_printings (fuel : Nat) :
    ∀ (s : PictureLoader) (first : PictureToLoad) (rest : List PictureToLoad),
      s.loadQueue = first :: rest → s.picDownload = false → s.files = [] →
      first.sortedSets = [] → 0 ≤ first.setIndex →
      loadQueueLoop demoEnv fuel s = none := by
  induction fuel with
  | zero => intro s first rest _ _ _ _ _; rfl
  | succ fuel ih =>
    intro s first rest hq hdl hfiles hsets hidx
    have hfind : findPicture demoEnv s.files (picsPaths s.picsPath first.getSetName
        (match first.getCard with | some c => c.correctedName | none => [])) = none := by
      apply findPicture_none
      intro p _
      rw [hfiles]
      exact ⟨rfl, rfl⟩
    rw [loadQueueLoop_advance demoEnv fuel s first rest hq hdl hfind
      (by rw [hsets]; simp; omega)]
    exact ih _ { first with setIndex := first.setIndex + 1 } rest rfl hdl hfiles hsets
      (by simp; omega)

/-- C15: with download disabled and no file on disk, processLoadQueue on a
queue that holds the fresh record of a card without printings does not return,
whatever the fuel: nextSet advances the index of the record for ever. -/
theorem processLoadQueue_no_printings_diverges (fuel : Nat) :
    processLoadQueue demoEnv fuel
      (enqueueImageLoad (PictureLoader.init "pics".toList false) (some cardNoSets)) = none := by
  unfold processLoadQueue
  rw [if_neg (by decide)]
  exact loadQueueLoop_no_printings fuel _ (PictureToLoad.new (some cardNoSets)) []
    (by decide) (by decide) (by decide) (by decide) (by decide)

/-! ## Sorting twice -/

theorem functor_false_iff (a b : CardSet) :
    EnabledAndKeyCompareFunctor b a = false ↔ rankLe (rankOf a) (rankOf b) := by
  unfold EnabledAndKeyCompareFunctor rankLe rankOf
  cases ha : a.enabled <;> cases hb : b.enabled <;> simp

theorem rankLe_antisymm (p q : Bool × Int) (h1 : rankLe p q) (h2 : rankLe q p) : p = q := by
  obtain ⟨p1, p2⟩ := p
  obtain ⟨q1, q2⟩ := q
  unfold rankLe at h1 h2
  simp only at h1 h2
  rcases h1 with ⟨h1a, h1b⟩ | ⟨h1a, h1b⟩ <;> rcases h2 with ⟨h2a, h2b⟩ | ⟨h2a, h2b⟩
  · rw [h1a] at h2b; exact absurd h2b (by decide)
  · rw [h1a, h1b] at h2a; exact absurd h2a (by decide)
  · rw [h2a, h2b] at h1a; exact absurd h1a (by decide)
  · have : p2 = q2 := by omega
    rw [h1a, this]

theorem ascending_map_rankOf (l : List CardSet) (h : Ascending EnabledAndKeyCompareFunctor l) :
    (l.map rankOf).Sorted rankLe := by
  unfold List.Sorted
  rw [List.pairwise_map]
  exact List.Pairwise.imp (fun {a b} hab => (functor_false_iff a b).mp hab) h

theorem eq_of_map_eq_of_injOn {α β : Type} (f : α → β) :
    ∀ l1 l2 : List α, (∀ x ∈ l1, ∀ y ∈ l2, f x = f y → x = y) →
      l1.map f = l2.map f → l1 = l2 := by
  intro l1
  induction l1 with
  | nil =>
    intro l2 _ h
    cases l2 with
    | nil => rfl
    | cons y ys => simp at h
  | cons x xs ih =>
    intro l2 hinj h
    cases l2 with
    | nil => simp at h
    | cons y ys =>
      simp only [List.map_cons, List.cons.injEq] at h
      have hxy : x = y := hinj x (List.mem_cons_self _ _) y (List.mem_cons_self _ _) h.1
      have hrest := ih ys (fun a ha b hb =>
        hinj a (List.mem_cons_of_mem _ ha) b (List.mem_cons_of_mem _ hb)) h.2
      rw [hxy, hrest]

/-- C14 (amended): sorting a list of printings a second time gives a
permutation of the once-sorted list that is again in the order of the ranking
and shows, position by position, the same enabled-state and sort key; when no
two printings of the list tie in enabled-state and sort key, sorting twice
gives the same list as sorting once. -/
theorem qSort_twice (l : List CardSet) :
    (qSort EnabledAndKeyCompareFunctor (qSort EnabledAndKeyCompareFunctor l)).Perm
      (qSort EnabledAndKeyCompareFunctor l) ∧
    Ascending EnabledAndKeyCompareFunctor
      (qSort EnabledAndKeyCompareFunctor (qSort EnabledAndKeyCompareFunctor l)) ∧
    (qSort EnabledAndKeyCompareFunctor (qSort EnabledAndKeyCompareFunctor l)).map rankOf =
      (qSort EnabledAndKeyCompareFunctor l).map rankOf ∧
    ((l.map rankOf).Nodup →
      qSort EnabledAndKeyCompareFunctor (qSort EnabledAndKeyCompareFunctor l) =
        qSort EnabledAndKeyCompareFunctor l) := by
  have p1 := qSort_perm EnabledAndKeyCompareFunctor functor_isRanking l
  have a1 := qSort_ascending EnabledAndKeyCompareFunctor functor_isRanking l
  generalize qSort EnabledAndKeyCompareFunctor l = once at p1 a1
  have p2 := qSort_perm EnabledAndKeyCompareFunctor functor_isRanking once
  have a2 := qSort_ascending EnabledAndKeyCompareFunctor functor_isRanking once
  generalize qSort EnabledAndKeyCompareFunctor once = twice at p2 a2
  haveI : IsAntisymm (Bool × Int) rankLe := ⟨rankLe_antisymm⟩
  have hmap : twice.map rankOf = once.map rankOf :=
    List.eq_of_perm_of_sorted (p2.map rankOf) (ascending_map_rankOf twice a2)
      (ascending_map_rankOf once a1)
  refine ⟨p2, a2, hmap, fun hnodup => ?_⟩
  have hnd : (once.map rankOf).Nodup := (p1.map rankOf).nodup_iff.mpr hnodup
  exact eq_of_map_eq_of_injOn rankOf twice once
    (fun x hx y hy hxy => List.inj_on_of_nodup_map hnd (p2.subset hx) hy hxy) hmap

/-- C14 (as stated): four printings that tie come back from the first sort as
fourth, third, first, second and from the second sort in yet another order. -/
theorem qSort_twice_differs :
    qSort EnabledAndKeyCompareFunctor tiedSets =
      [demoSet "S4" 0 true, demoSet "S3" 0 true, demoSet "S1" 0 true, demoSet "S2" 0 true] ∧
    qSort EnabledAndKeyCompareFunctor (qSort EnabledAndKeyCompareFunctor tiedSets) =
      [demoSet "S2" 0 true, demoSet "S1" 0 true, demoSet "S4" 0 true, demoSet "S3" 0 true] ∧
    qSort EnabledAndKeyCompareFunctor (qSort EnabledAndKeyCompareFunctor tiedSets) ≠
      qSort EnabledAndKeyCompareFunctor tiedSets := by
  decide

theorem qSort_twice_witness :
    (cardThree.sets.map rankOf).Nodup ∧
    qSort EnabledAndKeyCompareFunctor (qSort EnabledAndKeyCompareFunctor cardThree.sets) =
      qSort EnabledAndKeyCompareFunctor cardThree.sets :=
  ⟨by decide, (qSort_twice cardThree.sets).2.2.2 (by decide)⟩

/-! ## Single flight -/

theorem imageLoaded_net (s : PictureLoader) (card : Option CardInfo) (image : QImage) :
    (imageLoaded s card image).requests = s.requests ∧
    (imageLoaded s card image).downloadRunning = s.downloadRunning := by
  unfold imageLoaded
  cases card with
  | none => simp only []; split_ifs <;> exact ⟨rfl, rfl⟩
  | some c => simp only []; split_ifs <;> exact ⟨rfl, rfl⟩

theorem picDownloadFailed_net (s : PictureLoader) :
    (picDownloadFailed s).requests = s.requests ∧
    (picDownloadFailed s).downloadRunning = s.downloadRunning := by
  unfold picDownloadFailed
  simp only []
  split_ifs
  · exact ⟨rfl, rfl⟩
  · exact imageLoaded_net _ _ _

theorem enqueueImageLoad_net (s : PictureLoader) (card : Option CardInfo) :
    (enqueueImageLoad s card).requests = s.requests ∧
    (enqueueImageLoad s card).downloadRunning = s.downloadRunning := by
  unfold enqueueImageLoad
  split_ifs <;> exact ⟨rfl, rfl⟩

/-- After `startNextPicDownload` either nothing was requested and no download is
marked as running, or one request was added and a download is marked as
running. -/
theorem startNextPicDownload_net (env : Env) (s : PictureLoader) :
    ((startNextPicDownload env s).requests = s.requests ∧
      (startNextPicDownload env s).downloadRunning = false) ∨
    (∃ url, (startNextPicDownload env s).requests = s.requests ++ [url] ∧
      (startNextPicDownload env s).downloadRunning = true) := by
  unfold startNextPicDownload
  cases s.cardsToDownload with
  | nil => exact Or.inl ⟨rfl, rfl⟩
  | cons first rest =>
    simp only []
    split_ifs
    · left
      have := picDownloadFailed_net
        { s with downloadRunning := false, cardBeingDownloaded := first, cardsToDownload := rest }
      exact ⟨this.1, this.2⟩
    · exact Or.inr ⟨_, rfl, rfl⟩

theorem SingleFlight.of_eq {s s1 : PictureLoader} {f : Nat} (h : SingleFlight s f)
    (hr : s1.requests = s.requests) (hd : s1.downloadRunning = s.downloadRunning) :
    SingleFlight s1 f := by
  unfold SingleFlight at h ⊢
  rw [hr, hd]
  exact h

theorem startNextPicDownload_singleFlight (env : Env) (s : PictureLoader) (f : Nat)
    (h : s.requests.length = f) : SingleFlight (startNextPicDownload env s) f := by
  unfold SingleFlight
  rcases startNextPicDownload_net env s with ⟨hr, hd⟩ | ⟨url, hr, hd⟩
  · rw [hr, hd]
    exact ⟨by omega, by omega, fun _ => h⟩
  · rw [hr, hd]
    simp only [List.length_append, List.length_singleton]
    exact ⟨by omega, by omega, fun hc => absurd hc (by decide)⟩

theorem loadQueueLoop_singleFlight (env : Env) (f : Nat) :
    ∀ (fuel : Nat) (s s1 : PictureLoader), loadQueueLoop env fuel s = some s1 →
      SingleFlight s f →
      SingleFlight s1 f ∧
        (s.downloadRunning = true → s1.requests = s.requests ∧ s1.downloadRunning = true) := by
  intro fuel
  induction fuel with
  | zero => intro s s1 h _; simp [loadQueueLoop] at h
  | succ fuel ih =>
    intro s s1 h hs
    rw [loadQueueLoop] at h
    cases hq : s.loadQueue with
    | nil =>
      simp only [hq, Option.some.injEq] at h
      subst h
      exact ⟨hs.of_eq rfl rfl, fun hd => ⟨rfl, hd⟩⟩
    | cons first rest =>
      simp only [hq] at h
      split at h
      · -- the picture was found
        obtain ⟨k1, k2⟩ := ih _ s1 h
          (SingleFlight.of_eq hs (imageLoaded_net _ _ _).1 (imageLoaded_net _ _ _).2)
        rw [(imageLoaded_net _ _ _).2, (imageLoaded_net _ _ _).1] at k2
        exact ⟨k1, fun hd => k2 hd⟩
      · split_ifs at h with hdl hrun hnext
        · -- handed to the download manager, which is idle
          have hrun2 : s.downloadRunning = false := by simpa using hrun
          have hf : s.requests.length = f := hs.2.2 hrun2
          have := ih _ s1 h (startNextPicDownload_singleFlight env _ f hf)
          exact ⟨this.1, fun hd => absurd hd (by rw [hrun2]; decide)⟩
        · -- handed to the download manager, which is busy
          have := ih _ s1 h (hs.of_eq rfl rfl)
          exact ⟨this.1, fun hd => this.2 hd⟩
        · -- download disabled, next printing
          have := ih _ s1 h (hs.of_eq rfl rfl)
          exact ⟨this.1, fun hd => this.2 hd⟩
        · -- download disabled, no printing left
          obtain ⟨k1, k2⟩ := ih _ s1 h
            (SingleFlight.of_eq hs (imageLoaded_net _ _ _).1 (imageLoaded_net _ _ _).2)
          rw [(imageLoaded_net _ _ _).2, (imageLoaded_net _ _ _).1] at k2
          exact ⟨k1, fun hd => k2 hd⟩

theorem picDownloadFinished_singleFlight (env : Env) (s : PictureLoader) (reply : QNetworkReply)
    (f : Nat) (hs : SingleFlight s f) (hout : f < s.requests.length) :
    SingleFlight (picDownloadFinished env s reply) (f + 1) := by
  have hlen : s.requests.length = f + 1 := by
    have := hs.2.1
    omega
  have hrun : s.downloadRunning = true := by
    cases hd : s.downloadRunning
    · have := hs.2.2 hd
      omega
    · rfl
  have hstay : SingleFlight s (f + 1) := ⟨by omega, by omega, fun _ => hlen⟩
  unfold picDownloadFinished
  by_cases hst : reply.statusCode = 301 ∨ reply.statusCode = 302
  · rw [if_pos hst]
    refine ⟨?_, ?_, ?_⟩
    · simp only [List.length_append, List.length_singleton]; omega
    · simp only [List.length_append, List.length_singleton]; omega
    · intro hd
      rw [hrun] at hd
      exact absurd hd (by decide)
  · rw [if_neg hst]
    cases hdec : env.decode reply.data with
    | none =>
      simp only [hdec]
      split_ifs <;>
        exact startNextPicDownload_singleFlight env _ (f + 1)
          (by rw [(picDownloadFailed_net s).1]; exact hlen)
    | some testImage =>
      simp only [hdec]
      split_ifs
      all_goals first
        | exact hstay
        | exact startNextPicDownload_singleFlight env _ (f + 1)
            (by rw [(picDownloadFailed_net s).1]; exact hlen)
        | exact startNextPicDownload_singleFlight env _ (f + 1)
            (by rw [(imageLoaded_net _ _ _).1]; exact hlen)

theorem processLoadQueue_singleFlight (env : Env) (f fuel : Nat) (s s1 : PictureLoader)
    (h : processLoadQueue env fuel s = some s1) (hs : SingleFlight s f) :
    SingleFlight s1 f ∧
      (s.downloadRunning = true → s1.requests = s.requests ∧ s1.downloadRunning = true) := by
  unfold processLoadQueue at h
  split_ifs at h
  · simp only [Option.some.injEq] at h
    subst h
    exact ⟨hs, fun hd => ⟨rfl, hd⟩⟩
  · have := loadQueueLoop_singleFlight env f fuel _ s1 h (hs.of_eq rfl rfl)
    exact this

theorem netReachable_singleFlight (env : Env) (n : Network) (h : NetReachable env n) :
    SingleFlight n.loader n.finished := by
  induction h with
  | init picsPath picDownload =>
    exact ⟨le_refl _, Nat.le_succ _, fun _ => rfl⟩
  | step n n1 _ hstep ih =>
    cases hstep with
    | enqueueImageLoad card =>
      exact ih.of_eq (enqueueImageLoad_net _ _).1 (enqueueImageLoad_net _ _).2
    | processLoadQueue s1 fuel hp =>
      exact (processLoadQueue_singleFlight env _ fuel _ s1 hp ih).1
    | picDownloadFinished reply hout =>
      exact picDownloadFinished_singleFlight env _ reply _ ih hout
    | picDownloadFailed =>
      exact ih.of_eq (picDownloadFailed_net _).1 (picDownloadFailed_net _).2
    | startNextPicDownload hz =>
      have hlen : n.loader.requests.length = n.finished := by
        have := ih.1
        unfold Network.outstanding at hz
        omega
      exact startNextPicDownload_singleFlight env n.loader n.finished hlen

/-- C13: in every state that loader and network reach, at most one GET is
outstanding, and none when no download is marked as running; every step leaves
at most one GET outstanding, and a step that starts while a GET is outstanding
and in which no reply finishes issues no GET: a GET for a record is issued only
when no download is running, the GET of a redirect only by the step in which
the previous reply finishes. -/
theorem single_flight (env : Env) (n : Network) (h : NetReachable env n) :
    n.outstanding ≤ 1 ∧
    (n.loader.downloadRunning = false → n.outstanding = 0) ∧
    ∀ n1, NetStep env n n1 →
      n1.outstanding ≤ 1 ∧
      (n.outstanding = 1 → n1.finished = n.finished →
        n1.loader.requests = n.loader.requests) := by
  have hs := netReachable_singleFlight env n h
  have hout : ∀ m : Network, SingleFlight m.loader m.finished → m.outstanding ≤ 1 := by
    intro m hm
    unfold Network.outstanding
    have := hm.2.1
    omega
  refine ⟨hout n hs, ?_, ?_⟩
  · intro hd
    unfold Network.outstanding
    rw [hs.2.2 hd]
    exact Nat.sub_self _
  · intro n1 hstep
    refine ⟨hout n1 (netReachable_singleFlight env n1 (NetReachable.step n n1 h hstep)), ?_⟩
    intro hone hfin
    have hrun : n.loader.downloadRunning = true := by
      cases hd : n.loader.downloadRunning
      · have := hs.2.2 hd
        unfold Network.outstanding at hone
        omega
      · rfl
    cases hstep with
    | enqueueImageLoad card => exact (enqueueImageLoad_net _ _).1
    | processLoadQueue s1 fuel hp =>
      exact ((processLoadQueue_singleFlight env _ fuel _ s1 hp hs).2 hrun).1
    | picDownloadFinished reply ho => simp at hfin
    | picDownloadFailed => exact (picDownloadFailed_net _).1
    | startNextPicDownload hz => rw [hz] at hone; exact absurd hone (by decide)

theorem single_flight_witness :
    NetReachable demoEnv downloadingNet ∧
    downloadingNet.outstanding = 1 ∧
    (downloadingNet.outstanding ≤ 1 ∧
    (downloadingNet.loader.downloadRunning = false → downloadingNet.outstanding = 0) ∧
    ∀ n1, NetStep demoEnv downloadingNet n1 →
      n1.outstanding ≤ 1 ∧
      (downloadingNet.outstanding = 1 → n1.finished = downloadingNet.finished →
        n1.loader.requests = downloadingNet.loader.requests)) :=
  have hp : PictureLoader.processLoadQueue demoEnv 2
      (PictureLoader.enqueueImageLoad (PictureLoader.init "pics".toList true) (some cardA)) =
      some (downloading demoEnv cardA) := by decide
  have hr : NetReachable demoEnv downloadingNet :=
    NetReachable.step _ _
      (NetReachable.step _ _ (NetReachable.init "pics".toList true)
        (NetStep.enqueueImageLoad _ (some cardA)))
      (NetStep.processLoadQueue _ _ 2 hp)
  ⟨hr, by decide, single_flight demoEnv downloadingNet hr⟩

/-! ## Command-line arguments -/

theorem scanLoop_eq_foldl (arg : List Char) :
    ∀ st : ScanState, scanLoop arg st = (cstring arg).foldl (fun st c => scanStep c st) st := by
  induction arg with
  | nil => intro st; rfl
  | cons c rest ih =>
    intro st
    unfold scanLoop cstring
    by_cases h : c = NUL
    · rw [if_pos h, List.takeWhile_cons_of_neg (by simp [h])]
      rfl
    · rw [if_neg h, List.takeWhile_cons_of_pos (by simpa using h)]
      exact ih _

theorem suffix_snoc (x s : List Char) (a c : Char) :
    x ++ [a] <:+ s ++ [c] ↔ a = c ∧ x <:+ s := by
  rw [← List.reverse_prefix, List.reverse_append, List.reverse_append]
  simp only [List.reverse_singleton, List.singleton_append]
  rw [List.cons_prefix_cons, List.reverse_prefix]

theorem scanFold_state (t : List Char) :
    ((t.foldl (fun st c => scanStep c st) { state := 0, isDeckFile := true }).state = 0 ∨
      (t.foldl (fun st c => scanStep c st) { state := 0, isDeckFile := true }).state = 1 ∨
      (t.foldl (fun st c => scanStep c st) { state := 0, isDeckFile := true }).state = 2 ∨
      (t.foldl (fun st c => scanStep c st) { state := 0, isDeckFile := true }).state = 3 ∨
      (t.foldl (fun st c => scanStep c st) { state := 0, isDeckFile := true }).state = 4) ∧
    ((t.foldl (fun st c => scanStep c st) { state := 0, isDeckFile := true }).state = 1 ↔
      ['.'] <:+ t) ∧
    ((t.foldl (fun st c => scanStep c st) { state := 0, isDeckFile := true }).state = 2 ↔
      ['.', 'c'] <:+ t) ∧
    ((t.foldl (fun st c => scanStep c st) { state := 0, isDeckFile := true }).state = 3 ↔
      ['.', 'c', 'o'] <:+ t) ∧
    ((t.foldl (fun st c => scanStep c st) { state := 0, isDeckFile := true }).state = 4 ↔
      (['.', 'c', 'o', 'r'] <:+ t ∨ ['.', 'c', 'o', 'd'] <:+ t)) := by
  induction t using List.reverseRecOn with
  | nil =>
    simp
  | append_singleton t c ih =>
    rw [List.foldl_append]
    simp only [List.foldl_cons, List.foldl_nil]
    generalize (t.foldl (fun st c => scanStep c st) { state := 0, isDeckFile := true }) = st0 at ih
    obtain ⟨hr, i1, i2, i3, i4⟩ := ih
    have s1 : ['.'] <:+ t ++ [c] ↔ '.' = c := by
      have := suffix_snoc [] t '.' c
      simpa using this
    have s2 : ['.', 'c'] <:+ t ++ [c] ↔ 'c' = c ∧ ['.'] <:+ t := suffix_snoc ['.'] t 'c' c
    have s3 : ['.', 'c', 'o'] <:+ t ++ [c] ↔ 'o' = c ∧ ['.', 'c'] <:+ t :=
      suffix_snoc ['.', 'c'] t 'o' c
    have s4 : ['.', 'c', 'o', 'r'] <:+ t ++ [c] ↔ 'r' = c ∧ ['.', 'c', 'o'] <:+ t :=
      suffix_snoc ['.', 'c', 'o'] t 'r' c
    have s5 : ['.', 'c', 'o', 'd'] <:+ t ++ [c] ↔ 'd' = c ∧ ['.', 'c', 'o'] <:+ t :=
      suffix_snoc ['.', 'c', 'o'] t 'd' c
    rw [s1, s2, s3, s4, s5, ← i1, ← i2, ← i3]
    unfold scanStep
    by_cases c1 : c = '.'
    · subst c1; simp
    · by_cases c2 : c = 'c'
      · subst c2; simp; split_ifs <;> simp_all
      · by_cases c3 : c = 'o'
        · subst c3; simp; split_ifs <;> simp_all
        · by_cases c4 : c = 'd'
          · subst c4; simp; split_ifs <;> simp_all
          · by_cases c5 : c = 'r'
            · subst c5; simp; split_ifs <;> simp_all
            · have e1 : ¬ '.' = c := fun h => c1 h.symm
              have e2 : ¬ 'c' = c := fun h => c2 h.symm
              have e3 : ¬ 'o' = c := fun h => c3 h.symm
              have e4 : ¬ 'd' = c := fun h => c4 h.symm
              have e5 : ¬ 'r' = c := fun h => c5 h.symm
              simp [c1, c2, c3, c4, c5, e1, e2, e3, e4, e5]

/-- C21: for every argument, the extension scanner ends in state 4 exactly when
the text of the argument ends with ".cor" or with ".cod". -/
theorem scanExtension_accepts (arg : List Char) :
    (scanExtension arg).state = 4 ↔
      (".cor".toList <:+ cstring arg ∨ ".cod".toList <:+ cstring arg) := by
  unfold scanExtension
  rw [scanLoop_eq_foldl]
  exact (scanFold_state (cstring arg)).2.2.2.2

theorem scanExtension_examples :
    (scanExtension "deck.cod".toList).state = 4 ∧ (scanExtension "game.cor".toList).state = 4 ∧
    (scanExtension "deck.cod.txt".toList).state = 0 ∧ (scanExtension "deck.co".toList).state = 3 ∧
    (scanExtension "cor".toList).state = 0 ∧ (scanExtension "a..cod".toList).state = 4 ∧
    cstring "deck.cod".toList = "deck.cod".toList := by
  decide

theorem xSchemeLen_eq : xSchemeLen = 13 := by decide

/-- The prefix loop ends with `isXSchemeHandle` false for every argument: at
position 13 it compares the argument with the NUL that ends `xScheme`. -/
theorem xSchemeLoop_false (arg : List Char) :
    ∀ (fuel j : Nat), j ≤ 13 → 14 ≤ fuel + j → xSchemeLoop arg fuel j = some false := by
  intro fuel
  induction fuel with
  | zero => intro j h1 h2; omega
  | succ fuel ih =>
    intro j h1 h2
    rw [xSchemeLoop]
    split_ifs with hc
    · rw [Bool.and_eq_true, decide_eq_true_eq, xSchemeLen_eq] at hc
      exact ih (j + 1) (by omega) (by omega)
    · cases hx : (charAt arg j != NUL && charAt arg j == charAt xScheme j)
      · rfl
      · rw [hx, Bool.true_and, decide_eq_true_eq, xSchemeLen_eq] at hc
        have hj : j = 13 := by omega
        subst hj
        have h13 : charAt xScheme 13 = NUL := by decide
        rw [h13] at hx
        simp at hx

/-- C22: for the argument "cockatrice://join" the prefix check ends with
isXSchemeHandle false, and main records no xScheme handle: xSchemeFlag stays
false and xSchemeHandle empty. -/
theorem xScheme_handle_not_recorded :
    xSchemeLoop "cockatrice://join".toList 14 0 = some false ∧
    xSchemeLoop "cockatrice://".toList 14 0 = some false ∧
    processArgs "/home".toList 14 ["cockatrice".toList, "cockatrice://join".toList] =
      some { replays := [], decks := [], xSchemeHandle := [], xSchemeFlag := false } := by
  decide

/-- An argument whose text ends with ".cod" leaves the scanner with isDeckFile
true. -/
theorem scanExtension_cod (arg : List Char) (h : ".cod".toList <:+ cstring arg) :
    (scanExtension arg).isDeckFile = true := by
  obtain ⟨t, ht⟩ := h
  unfold scanExtension
  rw [scanLoop_eq_foldl, ← ht, List.foldl_append]
  rfl

/-- C23: the arguments "record.cor" and ".cor" are accepted by the scanner with
isDeckFile true, and main appends them to the deck list, not to the replay
list. -/
theorem replay_taken_for_deck :
    scanExtension "record.cor".toList = { state := 4, isDeckFile := true } ∧
    scanExtension ".cor".toList = { state := 4, isDeckFile := true } ∧
    scanExtension "game.cor".toList = { state := 4, isDeckFile := false } ∧
    processArgs "/home".toList 14 ["cockatrice".toList, "record.cor".toList, ".cor".toList] =
      some { replays := [], decks := ["/home/record.cor".toList, "/home/.cor".toList],
             xSchemeHandle := [], xSchemeFlag := false } := by
  decide

end Cockatrice
